import Mathlib

/-!
Verification of the quint-code Reliability Calculus and Phase-Gated Workflow
Engine against its natural-language specification.

The Go sources are shallowly embedded: SQL tables become lists of records,
`float64` scores become `ℚ` (every score constant in the program is an exact
decimal), wall-clock timestamps become `Int` (Unix seconds), the mutable
`visited` map threaded through the recursive reliability computation becomes an
explicitly threaded `Finset String`, and the recursion itself is driven by an
explicit fuel parameter (with a proved sufficient bound, so that fuel
exhaustion is provably unreachable from the public entry points).
-/

set_option maxHeartbeats 1000000

namespace Quint

/-- Row of the `evidence` table (src/mcp/db/store.go schema); only the columns
read by the calculator and the waiver queries are modelled. -/
structure Evid where
  id : String
  holonId : String
  type : String
  verdict : String
  validUntil : Option Int
  deriving DecidableEq, Repr

/-- Row of the `relations` table (src/mcp/db/store.go schema). -/
structure Rel where
  sourceId : String
  targetId : String
  relationType : String
  congruenceLevel : Int
  deriving DecidableEq, Repr

/-- Row of the `waivers` table (src/mcp/db/store.go schema). -/
structure Waiver where
  id : String
  evidenceId : String
  waivedBy : String
  waivedUntil : Int
  deriving DecidableEq, Repr

/-- Row of the `holons` table; only the columns the embedded operations read. -/
structure Holon where
  id : String
  layer : String
  title : String
  contextId : String
  deriving DecidableEq, Repr

/-- Row of the `active_holons` view. Modelled from the spec: the view's SQL
(migration v6) is not among the repository sources; the spec describes the
derive-phase query as reading counts of active holons per layer per bounded
context, so the view is modelled as an explicit table of active holons. -/
structure ActiveHolon where
  id : String
  contextId : String
  layer : String
  deriving DecidableEq, Repr

/-- The database state visible to the embedded core. -/
structure DB where
  holons : List Holon
  evidence : List Evid
  relations : List Rel
  waivers : List Waiver
  activeHolons : List ActiveHolon
  deriving DecidableEq, Repr

/-- AssuranceReport (src/mcp/assurance/calculator.go). -/
structure AssuranceReport where
  holonId : String
  finalScore : ℚ
  selfScore : ℚ
  weakestLink : String
  decayPenalty : ℚ
  factors : List String
  deriving DecidableEq, Repr

/-- Evidence rows of one holon, as returned by
`SELECT type, verdict, valid_until FROM evidence WHERE holon_id = ?`. -/
def evidenceOf (db : DB) (h : String) : List Evid :=
  db.evidence.filter (fun e => e.holonId = h)

/-- ASCII lower-casing, modelling Go's `strings.ToLower` on the inputs the
program actually compares (plain ASCII type and verdict labels). -/
def lower (s : String) : String :=
  String.mk (s.data.map (fun c =>
    if 65 ≤ c.toNat ∧ c.toNat ≤ 90 then Char.ofNat (c.toNat + 32) else c))

/-- Verdict to base score (calculator.go lines 65-73): the score variable is
initialised to 0 and the switch on the lower-cased verdict sets 1.0 / 0.5 / 0.0
for pass / degrade / fail. -/
def verdictScore (v : String) : ℚ :=
  if lower v = "pass" then 1
  else if lower v = "degrade" then 1/2
  else if lower v = "fail" then 0
  else 0

/-- evidenceTypeToCLPenalty (calculator.go lines 192-203). -/
def evidenceTypeToCLPenalty (t : String) : ℚ :=
  if lower t = "internal" ∨ lower t = "audit_report" then 0
  else if lower t = "external" then 1/10
  else if lower t = "research" then 2/5
  else 0

/-- Expiry test (calculator.go line 84): `validUntil != nil &&
time.Now().After(*validUntil)`; `now` is the wall clock at scoring time. -/
def isExpired (now : Int) (e : Evid) : Bool :=
  match e.validUntil with
  | some t => now > t
  | none => false

/-- The evidence loop of calculateReliabilityWithVisited (calculator.go lines
57-94), threading the running minimum, the decay penalty and the factor list
exactly as the Go loop mutates them. -/
def evidenceFold (now : Int) : List Evid → ℚ → ℚ → List String → ℚ × ℚ × List String
  | [], minScore, decay, factors => (minScore, decay, factors)
  | e :: rest, minScore, decay, factors =>
    let score := verdictScore e.verdict
    let clPenalty := evidenceTypeToCLPenalty e.type
    let sf : ℚ × List String :=
      if clPenalty > 0 then
        (max 0 (score - clPenalty), factors ++ ["External evidence CL2 penalty applied"])
      else (score, factors)
    let sdf : ℚ × ℚ × List String :=
      if isExpired now e then
        (1/10, decay + 9/10, sf.2 ++ ["Evidence expired (Decay applied)"])
      else (sf.1, decay, sf.2)
    evidenceFold now rest (min minScore sdf.1) sdf.2.1 sdf.2.2

/-- The per-item evidence score implied by the loop body (base score, then type
penalty, then the unconditional expiry override). -/
def evidenceScore (now : Int) (e : Evid) : ℚ :=
  if isExpired now e then 1/10
  else if evidenceTypeToCLPenalty e.type > 0 then
    max 0 (verdictScore e.verdict - evidenceTypeToCLPenalty e.type)
  else verdictScore e.verdict

/-- Dependency row produced by the UNION query of calculator.go lines 111-116. -/
structure Dep where
  id : String
  cl : Int
  deriving DecidableEq, Repr

/-- The dependency query (calculator.go lines 111-116): sources of componentOf
edges targeting the holon, unioned with targets of dependsOn edges leaving it.
SQL UNION is duplicate-eliminating, hence the `dedup`. -/
def depsOf (db : DB) (h : String) : List Dep :=
  (((db.relations.filter (fun r => r.targetId = h ∧ r.relationType = "componentOf")).map
      (fun r => Dep.mk r.sourceId r.congruenceLevel)) ++
    ((db.relations.filter (fun r => r.sourceId = h ∧ r.relationType = "dependsOn")).map
      (fun r => Dep.mk r.targetId r.congruenceLevel))).dedup

/-- calculateCLPenalty (calculator.go lines 175-186). -/
def calculateCLPenalty (cl : Int) : ℚ :=
  if cl = 3 then 0
  else if cl = 2 then 1/10
  else if cl = 1 then 2/5
  else 9/10

/-- The dependency loop of calculateReliabilityWithVisited (calculator.go lines
137-156), parameterised by the recursive call `f`; it threads the shared
visited set, the running minimum, the weakest-link id and the factor list. -/
def depFold (f : String → Finset String → Option (AssuranceReport × Finset String)) :
    List Dep → Finset String → ℚ → String → List String →
    Option (ℚ × String × List String × Finset String)
  | [], visited, minDep, wl, factors => some (minDep, wl, factors, visited)
  | d :: rest, visited, minDep, wl, factors =>
    match f d.id visited with
    | none => none
    | some (depReport, visited') =>
      let penalty := calculateCLPenalty d.cl
      let effectiveR := max 0 (depReport.finalScore - penalty)
      let mw : ℚ × String :=
        if effectiveR < minDep then (effectiveR, d.id) else (minDep, wl)
      let factors' :=
        if penalty > 0 then factors ++ ["CL Penalty applied for " ++ d.id] else factors
      depFold f rest visited' mw.1 mw.2 factors'

/-- The neutral report returned when a holon id is revisited (calculator.go
lines 35-42). -/
def cycleReport (h : String) : AssuranceReport :=
  { holonId := h, finalScore := 1, selfScore := 1, weakestLink := "",
    decayPenalty := 0, factors := ["Cycle detected, skipping re-evaluation"] }

/-- The Self Score of the evidence block (calculator.go lines 96-101): the
threaded minimum when there is evidence, 0.0 otherwise. -/
def selfScoreOf (db : DB) (now : Int) (h : String) : ℚ :=
  if (evidenceOf db h).isEmpty then 0 else (evidenceFold now (evidenceOf db h) 1 0 []).1

/-- The decay penalty accumulated by the evidence loop. -/
def decayOf (db : DB) (now : Int) (h : String) : ℚ :=
  (evidenceFold now (evidenceOf db h) 1 0 []).2.1

/-- The factor list after the evidence block (calculator.go lines 96-101). -/
def selfFactors (db : DB) (now : Int) (h : String) : List String :=
  if (evidenceOf db h).isEmpty then
    (evidenceFold now (evidenceOf db h) 1 0 []).2.2 ++ ["No evidence found (L0)"]
  else (evidenceFold now (evidenceOf db h) 1 0 []).2.2

/-- calculateReliabilityWithVisited (calculator.go lines 33-173), with explicit
fuel. `none` means the fuel ran out; `calcR_total` below proves the bound used
by `computeReliability` never does. The best-effort cache write of the final
score (lines 168-170) has no observable effect on the report and is omitted. -/
def calcR (db : DB) (now : Int) : Nat → String → Finset String →
    Option (AssuranceReport × Finset String)
  | 0, _, _ => none
  | (fuel+1), h, visited =>
    if h ∈ visited then some (cycleReport h, visited)
    else
      match depFold (calcR db now fuel) (depsOf db h) (insert h visited) 1 ""
          (selfFactors db now h) with
      | none => none
      | some (minDep, wl, factors2, visitedOut) =>
        some ({ holonId := h,
                finalScore := if (depsOf db h).isEmpty then selfScoreOf db now h
                  else min (selfScoreOf db now h) minDep,
                selfScore := selfScoreOf db now h,
                weakestLink := wl, decayPenalty := decayOf db now h,
                factors := factors2 },
              visitedOut)

/-- Every id that occurs as an endpoint of some relation; the recursive calls
of `calcR` only ever visit such ids. -/
def relIds (db : DB) : Finset String :=
  (db.relations.map (fun r => r.sourceId)).toFinset ∪
    (db.relations.map (fun r => r.targetId)).toFinset

/-- CalculateReliability (calculator.go lines 28-31): run the recursion from an
empty visited set, with fuel that `calcR_total` proves sufficient. -/
def computeReliability (db : DB) (now : Int) (h : String) : Option AssuranceReport :=
  (calcR db now ((relIds db).card + 2) h ∅).map Prod.fst


/-! The phase state machine (src/mcp/internal/fpf/fsm.go, roles.go). -/

/-- Workflow phases (fsm.go lines 17-25). -/
inductive Phase
  | idle
  | abduction
  | deduction
  | induction
  | audit
  | decision
  | operation
  deriving DecidableEq, Repr

/-- The string names of the phase constants. -/
def Phase.toStr : Phase → String
  | .idle => "IDLE"
  | .abduction => "ABDUCTION"
  | .deduction => "DEDUCTION"
  | .induction => "INDUCTION"
  | .audit => "AUDIT"
  | .decision => "DECISION"
  | .operation => "OPERATION"

/-- RoleAssignment (fsm.go lines 27-31); `Role` is a string type in Go. -/
structure RoleAssignment where
  role : String
  sessionId : String
  context : String
  deriving DecidableEq, Repr

/-- EvidenceStub (fsm.go lines 33-38). -/
structure EvidenceStub where
  type : String
  uri : String
  description : String
  holonId : String
  deriving DecidableEq, Repr

/-- State (fsm.go lines 40-45). -/
structure State where
  phase : Phase
  activeRole : RoleAssignment
  lastCommit : String
  assuranceThreshold : ℚ
  deriving DecidableEq, Repr

/-- TransitionRule (fsm.go lines 47-51); `From`/`To` are spelt `frm`/`toP`
because `from` and `to` are reserved in Lean. -/
structure TransitionRule where
  frm : Phase
  toP : Phase
  role : String
  deriving DecidableEq, Repr

/-- FSM (fsm.go lines 53-56); `db = none` models a nil database handle. -/
structure FSM where
  state : State
  db : Option DB
  deriving DecidableEq, Repr

/-- The fpf_state row for one bounded context, with SQL-nullable columns as
options (fsm.go lines 71-77). -/
structure FpfStateRow where
  activeRole : Option String
  activeSessionId : Option String
  activeRoleContext : Option String
  lastCommit : Option String
  assuranceThreshold : Option ℚ
  deriving DecidableEq, Repr

/-- LoadState (fsm.go lines 58-101): defaults are phase Idle and threshold 0.8;
with a database, the stored row's valid columns override the defaults. `row` is
the fpf_state row for the requested context id (`none` models sql.ErrNoRows). -/
def loadState (db : Option DB) (row : Option FpfStateRow) : FSM :=
  let base : State :=
    { phase := .idle, activeRole := ⟨"", "", ""⟩, lastCommit := "",
      assuranceThreshold := 4/5 }
  match db with
  | none => { state := base, db := none }
  | some d =>
    match row with
    | none => { state := base, db := some d }
    | some r =>
      let st1 := match r.activeRole with
        | some ar =>
          { base with activeRole :=
              ⟨ar, r.activeSessionId.getD "", r.activeRoleContext.getD ""⟩ }
        | none => base
      let st2 := match r.lastCommit with
        | some lc => { st1 with lastCommit := lc }
        | none => st1
      let st3 := match r.assuranceThreshold with
        | some t => { st2 with assuranceThreshold := t }
        | none => st2
      { state := st3, db := some d }

/-- Count of active holons of one layer in one context, as produced by the
GROUP BY query of DerivePhase (fsm.go lines 121-137). -/
def countLayer (d : DB) (ctx layer : String) : Nat :=
  (d.activeHolons.filter (fun h => h.contextId = ctx ∧ h.layer = layer)).length

/-- The EXISTS subquery of DerivePhase (fsm.go lines 150-157): is there
audit_report evidence attached to an active L2 holon of the context? -/
def hasAuditEvidence (d : DB) (ctx : String) : Bool :=
  d.evidence.any (fun e => e.type = "audit_report" ∧
    d.activeHolons.any (fun h => h.id = e.holonId ∧ h.contextId = ctx ∧ h.layer = "L2"))

/-- DerivePhase (fsm.go lines 116-169): the informational phase derived from
active holon counts and audit evidence. -/
def derivePhase (d : DB) (ctx : String) : Phase :=
  let drr := countLayer d ctx "DRR"
  let l2 := countLayer d ctx "L2"
  let l1 := countLayer d ctx "L1"
  let l0 := countLayer d ctx "L0"
  if drr > 0 then .decision
  else if l2 > 0 then (if hasAuditEvidence d ctx then .audit else .induction)
  else if l1 > 0 then .deduction
  else if l0 > 0 then .abduction
  else .idle

/-- GetPhase (fsm.go lines 103-108): with a database attached this returns the
derived phase for context "default", otherwise the in-memory phase. -/
def getPhase (f : FSM) : Phase :=
  match f.db with
  | some d => derivePhase d "default"
  | none => f.state.phase

/-- GetAssuranceThreshold (fsm.go lines 200-205). -/
def getAssuranceThreshold (f : FSM) : ℚ :=
  if f.state.assuranceThreshold ≤ 0 then 4/5 else f.state.assuranceThreshold

/-- The fixed transition table (fsm.go lines 221-231). -/
def validTransitions : List TransitionRule :=
  [⟨.idle, .abduction, "Abductor"⟩,
   ⟨.abduction, .deduction, "Deductor"⟩,
   ⟨.deduction, .induction, "Inductor"⟩,
   ⟨.induction, .deduction, "Deductor"⟩,
   ⟨.induction, .audit, "Auditor"⟩,
   ⟨.induction, .decision, "Decider"⟩,
   ⟨.audit, .decision, "Decider"⟩,
   ⟨.decision, .idle, "Decider"⟩,
   ⟨.decision, .operation, "Decider"⟩]

/-- isValidRoleForPhase (fsm.go lines 321-339). -/
def isValidRoleForPhase (phase : Phase) (role : String) : Bool :=
  match phase with
  | .idle => true
  | .abduction => role = "Abductor"
  | .deduction => role = "Deductor"
  | .induction => role = "Inductor"
  | .audit => role = "Auditor"
  | .decision => role = "Decider" ∨ role = "Auditor"
  | .operation => role = "Decider"

/-- File-system view used by validateEvidence: `stat` yields the IsDir flag
(`none` models an error), `readFile` the content, `readDirCount` the number of
directory entries. -/
structure FileSystem where
  stat : String → Option Bool
  readFile : String → Option String
  readDirCount : String → Option Nat

/-- The checkFile closure of validateEvidence (fsm.go lines 276-286): a
readable, non-empty regular file. -/
def checkFile (fs : FileSystem) (path : String) : Bool :=
  match fs.stat path with
  | some false =>
    match fs.readFile path with
    | some content => content.length > 0
    | none => false
  | _ => false

/-- Go's strings.Contains for a non-empty pattern. -/
def strContains (s pat : String) : Bool :=
  decide (pat.data <:+: s.data)

/-- Go's filepath.Ext: the suffix of the last path element starting at its
final dot, or the empty string. Scans the reversed character list. -/
def extChars : List Char → List Char → String
  | [], _ => ""
  | c :: rest, acc =>
    if c = '.' then String.mk ('.' :: acc)
    else if c = '/' then ""
    else extChars rest (c :: acc)

/-- Extension of a path (filepath.Ext). -/
def extOf (s : String) : String := extChars s.data.reverse []

/-- validateEvidence (fsm.go lines 271-319); as in the Go source the from
phase parameter is accepted but unused. -/
def validateEvidence (fs : FileSystem) (_fromPhase toPhase : Phase)
    (evidence : Option EvidenceStub) : Bool :=
  match evidence with
  | none => false
  | some e =>
    if e.uri = "" then false
    else
      match toPhase with
      | .deduction =>
        match fs.stat e.uri with
        | some true =>
          match fs.readDirCount e.uri with
          | some (_+1) => true
          | _ => false
        | _ => false
      | .induction =>
        (strContains e.uri "knowledge/L1/" && extOf e.uri == ".md") && checkFile fs e.uri
      | .audit =>
        (strContains e.uri "knowledge/L2/" && extOf e.uri == ".md") && checkFile fs e.uri
      | .decision =>
        (strContains e.uri "knowledge/L2/" && extOf e.uri == ".md") && checkFile fs e.uri
      | _ => true

/-- Two-decimal rendering of a score, modelling the %.2f format verb. -/
def fmt2 (q : ℚ) : String :=
  let n : Int := round (q * 100)
  toString (n / 100) ++ "." ++ (if (n % 100).toNat < 10 then "0" ++ toString ((n % 100).toNat) else toString ((n % 100).toNat))

/-- Rejection message for a triple not in the transition table (fsm.go 244). -/
def invalidTransitionMsg (p t : Phase) (role : String) : String :=
  "Invalid transition: " ++ p.toStr ++ " -> " ++ t.toStr ++ " by " ++ role

/-- Rejection message for a failed evidence-anchor validation (fsm.go 248). -/
def anchorRequiredMsg (t p : Phase) : String :=
  "Transition to " ++ t.toStr ++ " requires valid Evidence Anchor (A.10) from " ++ p.toStr

/-- Rejection message for a role invalid in the current phase (fsm.go 218). -/
def roleNotActiveMsg (role : String) (p : Phase) : String :=
  "Role " ++ role ++ " is not active in " ++ p.toStr ++ " phase"

/-- Rejection message of the assurance-threshold gate (fsm.go 264). -/
def deniedMsg (score threshold : ℚ) (wl : String) : String :=
  "Transition Denied: Reliability (" ++ fmt2 score ++ ") is below threshold (" ++
    fmt2 threshold ++ "). Weakest link: " ++ wl

/-- Rejection message for a missing holon id on an Operation transition
(fsm.go 253). -/
def holonIdRequiredMsg : String :=
  "Transition to Operation requires a specific Holon ID in evidence stub"

/-- CanTransition (fsm.go lines 207-269). The result is `none` exactly when the
Go code would dereference a nil database handle or the calculator fails
(modelled by fuel exhaustion, proved unreachable). -/
def canTransition (f : FSM) (fs : FileSystem) (now : Int) (target : Phase)
    (assignment : RoleAssignment) (evidence : Option EvidenceStub) :
    Option (Bool × String) :=
  if assignment.role = "" then some (false, "Role is required")
  else if getPhase f = target then
    if isValidRoleForPhase (getPhase f) assignment.role then some (true, "OK")
    else some (false, roleNotActiveMsg assignment.role (getPhase f))
  else if !(validTransitions.any (fun r =>
      decide (r.frm = getPhase f ∧ r.toP = target ∧ r.role = assignment.role))) then
    some (false, invalidTransitionMsg (getPhase f) target assignment.role)
  else if !(validateEvidence fs (getPhase f) target evidence) then
    some (false, anchorRequiredMsg target (getPhase f))
  else if target = .operation then
    match evidence with
    | none => some (false, holonIdRequiredMsg)
    | some stub =>
      if stub.holonId = "" then some (false, holonIdRequiredMsg)
      else
        match f.db with
        | none => none
        | some d =>
          match computeReliability d now stub.holonId with
          | none => none
          | some report =>
            if report.finalScore < getAssuranceThreshold f then
              some (false,
                deniedMsg report.finalScore (getAssuranceThreshold f) report.weakestLink)
            else some (true, "OK")
  else some (true, "OK")

/-! Relation creation and the cycle-avoidance policy
(src/unnamed/part_003: ProposeHypothesis, createRelation, wouldCreateCycle,
isReachable). -/

/-- Outgoing dependency edges of a holon. Modelled from the spec: the
sqlc-generated SQL behind `Store.GetDependencies` is not among the repository
sources; the spec's cycle-avoidance policy (section 4.1) says the reachability
search runs over existing edges of the two reliability-propagating relation
types, followed from source to target. -/
def getDependencies (db : DB) (s : String) : List Rel :=
  db.relations.filter (fun r =>
    r.sourceId = s ∧ (r.relationType = "componentOf" ∨ r.relationType = "dependsOn"))

/-- The dependency loop of isReachable (part_003 lines 361-367), parameterised
by the recursive call `f`; the visited set is shared across iterations. -/
def reachFold (f : String → Finset String → Option (Bool × Finset String)) :
    List Rel → Finset String → Option (Bool × Finset String)
  | [], visited => some (false, visited)
  | r :: rest, visited =>
    match f r.targetId visited with
    | none => none
    | some (true, v) => some (true, v)
    | some (false, v) => reachFold f rest v

/-- isReachable (part_003 lines 347-369), with explicit fuel; `none` means the
fuel ran out, which `isReachable_total` below proves unreachable from
`wouldCreateCycle`. -/
def isReachable (db : DB) : Nat → String → String → Finset String →
    Option (Bool × Finset String)
  | 0, _, _, _ => none
  | (fuel+1), a, b, visited =>
    if a = b then some (true, visited)
    else if a ∈ visited then some (false, visited)
    else reachFold (fun x v => isReachable db fuel x b v)
      (getDependencies db a) (insert a visited)

/-- wouldCreateCycle (part_003 lines 342-345): is the proposed source reachable
from the proposed target? -/
def wouldCreateCycle (db : DB) (sourceId targetId : String) : Option Bool :=
  (isReachable db ((relIds db).card + 2) targetId sourceId ∅).map Prod.fst

/-- Store-level relation insert. Modelled from the spec: the sqlc-generated SQL
behind `Store.CreateRelation` is not among the repository sources; per the spec
(section 4.1) relations are unique per (source, target, type) and an
out-of-range congruence level is clamped to the default 3. -/
def storeCreateRelation (db : DB) (sourceId relationType targetId : String)
    (cl : Int) : DB :=
  let cl2 := if 0 ≤ cl ∧ cl ≤ 3 then cl else 3
  if db.relations.any (fun r =>
      decide (r.sourceId = sourceId ∧ r.targetId = targetId ∧ r.relationType = relationType)) then db
  else { db with relations := db.relations ++ [⟨sourceId, targetId, relationType, cl2⟩] }

/-- createRelation (part_003 lines 327-340): a self-relation fails before any
store write. -/
def createRelation (db : DB) (sourceId relationType targetId : String)
    (cl : Int) : Except String DB :=
  if sourceId = targetId then .error "holon cannot relate to itself"
  else .ok (storeCreateRelation db sourceId relationType targetId cl)

/-- Warning surfaced when a dependency id does not exist (part_003 line 306). -/
def notFoundWarning (depId : String) : String :=
  "dependency " ++ depId ++ " not found, skipping"

/-- Warning surfaced when an edge would close a cycle (part_003 line 311). -/
def cycleWarning (depId : String) : String :=
  "dependency on " ++ depId ++ " would create cycle, skipping"

/-- Warning surfaced when the store-level relation insert fails
(part_003 line 316). -/
def relFailedWarning (depId : String) : String :=
  "failed to create relation to " ++ depId

/-- The dependency-linking loop of ProposeHypothesis (part_003 lines 304-319):
missing dependencies, would-be cycles and failed inserts each surface a warning
and processing continues with the remaining requests. -/
def linkDependencies (slug relationType : String) (cl : Int) :
    List String → DB → DB × List String
  | [], db => (db, [])
  | depId :: rest, db =>
    if !(db.holons.any (fun h => h.id = depId)) then
      let r := linkDependencies slug relationType cl rest db
      (r.1, notFoundWarning depId :: r.2)
    else if (wouldCreateCycle db depId slug).getD false then
      let r := linkDependencies slug relationType cl rest db
      (r.1, cycleWarning depId :: r.2)
    else
      match createRelation db depId relationType slug cl with
      | .error _ =>
        let r := linkDependencies slug relationType cl rest db
        (r.1, relFailedWarning depId :: r.2)
      | .ok db2 => linkDependencies slug relationType cl rest db2

/-- The dependency-linking step of ProposeHypothesis (part_003 lines 294-320),
including the pre-loop clamp of the congruence level and the kind-dependent
relation type. -/
def proposeLinkDeps (slug kind : String) (dependencyCL : Int)
    (dependsOn : List String) (db : DB) : DB × List String :=
  let cl := if dependencyCL < 1 ∨ dependencyCL > 3 then 3 else dependencyCL
  let relationType := if kind = "episteme" then "constituentOf" else "componentOf"
  linkDependencies slug relationType cl dependsOn db

/-- An active waiver covering an evidence item. Modelled from the spec: the
sqlc-generated SQL behind `Store.GetActiveWaiverForEvidence` is not among the
repository sources; per the spec (section 4.1) it returns only a waiver whose
waived-until timestamp is still in the future. The calculator itself never
queries waivers. -/
def hasActiveWaiver (db : DB) (now : Int) (evidenceId : String) : Bool :=
  db.waivers.any (fun w => w.evidenceId = evidenceId ∧ now < w.waivedUntil)

/-- One reliability-propagating edge, in the orientation the reachability
search follows (source to target). -/
def depEdge (db : DB) (x y : String) : Prop :=
  ∃ r ∈ db.relations, r.sourceId = x ∧ r.targetId = y ∧
    (r.relationType = "componentOf" ∨ r.relationType = "dependsOn")

/-- Graph reachability along dependency edges: the specification-side meaning
of "the proposed source is reachable from the proposed target". -/
def Reaches (db : DB) : String → String → Prop :=
  Relation.ReflTransGen (depEdge db)

/-! Specification-side definitions used to state the claims, and the concrete
databases used by counterexamples and witnesses. -/

/-- The per-item evidence contribution as the specification words it (claims
about the Self Score): base score from the verdict minus the type penalty,
floored at 0, overridden to 0.1 on expiry. -/
def specItemScore (now : Int) (e : Evid) : ℚ :=
  if isExpired now e then 1/10
  else max 0 (verdictScore e.verdict - evidenceTypeToCLPenalty e.type)

/-- The per-dependency effective scores, in loop order, produced by the same
threaded recursion as the dependency loop; used to state the Final Score as a
minimum over dependencies. -/
def depEffScores (f : String → Finset String → Option (AssuranceReport × Finset String)) :
    List Dep → Finset String → Option (List ℚ × Finset String)
  | [], v => some ([], v)
  | d :: rest, v =>
    match f d.id v with
    | none => none
    | some (r, v2) =>
      match depEffScores f rest v2 with
      | none => none
      | some (l, v3) => some (max 0 (r.finalScore - calculateCLPenalty d.cl) :: l, v3)

/-! Concrete databases used by counterexamples and witnesses. -/

/-- Two holons, each depending on the other: a minimal dependency cycle. -/
def dbCyc : DB :=
  { holons := [], activeHolons := [], waivers := [], evidence := [],
    relations := [⟨"a", "b", "dependsOn", 3⟩, ⟨"b", "a", "dependsOn", 3⟩] }

/-- One holon whose single pass/internal evidence is expired (valid_until 100)
but covered by a waiver that is active at time 200 (waived_until 1000). -/
def dbC1 : DB :=
  { holons := [], activeHolons := [],
    evidence := [⟨"e1", "h1", "internal", "pass", some 100⟩],
    relations := [],
    waivers := [⟨"w1", "e1", "user", 1000⟩] }

/-- The report of `calcR dbC1 200 1 "h1" ∅`. -/
def rW1 : AssuranceReport :=
  { holonId := "h1", finalScore := 1/10, selfScore := 1/10, weakestLink := "",
    decayPenalty := 9/10, factors := ["Evidence expired (Decay applied)"] }

/-- One holon with a pass/internal and a degrade/external evidence item. -/
def dbW4 : DB :=
  { holons := [], activeHolons := [], waivers := [],
    evidence := [⟨"e1", "a", "internal", "pass", none⟩,
                 ⟨"e2", "a", "external", "degrade", none⟩],
    relations := [] }

/-- The report of `calcR dbW4 0 1 "a" ∅`. -/
def rW4 : AssuranceReport :=
  { holonId := "a", finalScore := 2/5, selfScore := 2/5, weakestLink := "",
    decayPenalty := 0, factors := ["External evidence CL2 penalty applied"] }

/-- Holon a depends on b with congruence level 2; a has pass/internal
evidence, b has degrade/internal evidence. -/
def dbW3 : DB :=
  { holons := [], activeHolons := [], waivers := [],
    evidence := [⟨"e1", "a", "internal", "pass", none⟩,
                 ⟨"e2", "b", "internal", "degrade", none⟩],
    relations := [⟨"a", "b", "dependsOn", 2⟩] }

/-- The report of `calcR dbW3 0 2 "a" ∅`. -/
def rW3 : AssuranceReport :=
  { holonId := "a", finalScore := 2/5, selfScore := 1, weakestLink := "b",
    decayPenalty := 0, factors := ["CL Penalty applied for b"] }

/-- FSM with no database in phase Abduction (used for transition-table
instances; with no database GetPhase returns the in-memory phase). -/
def fsmAbd : FSM :=
  { state := { phase := .abduction, activeRole := ⟨"", "", ""⟩, lastCommit := "",
               assuranceThreshold := 4/5 },
    db := none }

/-- File system with one non-empty directory "anchors". -/
def fsDir : FileSystem :=
  { stat := fun p => if p = "anchors" then some true else none,
    readFile := fun _ => none,
    readDirCount := fun p => if p = "anchors" then some 2 else none }

/-- File system where the directory "anchors" exists but is empty. -/
def fsEmptyDir : FileSystem :=
  { stat := fun p => if p = "anchors" then some true else none,
    readFile := fun _ => none,
    readDirCount := fun p => if p = "anchors" then some 0 else none }

/-- Empty database: every table empty. -/
def dbEmpty : DB :=
  { holons := [], evidence := [], relations := [], waivers := [], activeHolons := [] }

/-- Database that differs from `dbEmpty` only in the active-holon rows the
derive-phase query reads: one active L0 holon in context "default". -/
def dbL0 : DB :=
  { holons := [], evidence := [], relations := [], waivers := [],
    activeHolons := [⟨"x", "default", "L0"⟩] }

/-- The in-memory state persisted in both C2 configurations: phase Idle. -/
def stIdle : State :=
  { phase := .idle, activeRole := ⟨"", "", ""⟩, lastCommit := "",
    assuranceThreshold := 4/5 }

/-- Database whose active holons put the derived phase at Decision (one DRR
row) and whose holon "h1" carries one degrade/internal evidence item. -/
def dbOp : DB :=
  { holons := [], waivers := [], relations := [],
    evidence := [⟨"e1", "h1", "internal", "degrade", none⟩],
    activeHolons := [⟨"d1", "default", "DRR"⟩] }

/-- FSM over `dbOp` with the default assurance threshold. -/
def fsmOp : FSM := { state := stIdle, db := some dbOp }

/-- Evidence stub naming holon "h1" for the Operation transition. -/
def stubOp : EvidenceStub := { type := "", uri := "stub", description := "", holonId := "h1" }

/-- The report of `computeReliability dbOp 0 "h1"`. -/
def rOp : AssuranceReport :=
  { holonId := "h1", finalScore := 1/2, selfScore := 1/2, weakestLink := "",
    decayPenalty := 0, factors := [] }

/-- Database used by the C8 witness: holon "b" exists and edge a→b is present,
so linking "b" as a dependency of "a" (edge b→a) would close a cycle. -/
def dbC8 : DB :=
  { holons := [⟨"b", "L0", "b", "default"⟩], evidence := [], waivers := [],
    activeHolons := [],
    relations := [⟨"a", "b", "dependsOn", 3⟩] }

/-! Helper lemmas. -/

lemma verdictScore_nonneg (v : String) : 0 ≤ verdictScore v := by
  unfold verdictScore; split_ifs <;> norm_num

lemma verdictScore_le_one (v : String) : verdictScore v ≤ 1 := by
  unfold verdictScore; split_ifs <;> norm_num

lemma clPenalty_nonneg (cl : Int) : 0 ≤ calculateCLPenalty cl := by
  unfold calculateCLPenalty; split_ifs <;> norm_num

lemma evidenceTypePenalty_nonneg (t : String) : 0 ≤ evidenceTypeToCLPenalty t := by
  unfold evidenceTypeToCLPenalty; split_ifs <;> norm_num

lemma evidenceScore_nonneg (now : Int) (e : Evid) : 0 ≤ evidenceScore now e := by
  unfold evidenceScore
  split_ifs with h1 h2
  · norm_num
  · exact le_max_left 0 _
  · exact verdictScore_nonneg _

lemma evidenceScore_le_one (now : Int) (e : Evid) : evidenceScore now e ≤ 1 := by
  unfold evidenceScore
  split_ifs with h1 h2
  · norm_num
  · refine max_le (by norm_num) ?_
    have := verdictScore_le_one e.verdict
    have h0 := evidenceTypePenalty_nonneg e.type
    linarith
  · exact verdictScore_le_one _

lemma evidenceScore_of_expired (now : Int) (e : Evid) (h : isExpired now e = true) :
    evidenceScore now e = 1/10 := by
  unfold evidenceScore; simp [h]

lemma evidenceFold_fst (now : Int) :
    ∀ (l : List Evid) (m d : ℚ) (fs : List String),
      (evidenceFold now l m d fs).1 =
        l.foldl (fun acc e => min acc (evidenceScore now e)) m := by
  intro l
  induction l with
  | nil => intro m d fs; rfl
  | cons e rest ih =>
    intro m d fs
    simp only [evidenceFold, List.foldl_cons]
    rw [ih]
    congr 1
    unfold evidenceScore
    by_cases hexp : isExpired now e
    · simp [hexp]
    · simp only [hexp, Bool.false_eq_true, if_false]
      by_cases hpen : evidenceTypeToCLPenalty e.type > 0
      · simp [hpen]
      · simp [hpen]

lemma evidenceFold_decay (now : Int) :
    ∀ (l : List Evid) (m d : ℚ) (fs : List String),
      (evidenceFold now l m d fs).2.1 =
        d + (9/10) * (l.countP (fun e => isExpired now e) : ℚ) := by
  intro l
  induction l with
  | nil => intro m d fs; simp [evidenceFold]
  | cons e rest ih =>
    intro m d fs
    simp only [evidenceFold]
    rw [ih]
    by_cases hexp : isExpired now e
    · simp only [hexp, if_true, List.countP_cons, hexp]
      push_cast
      ring
    · simp only [hexp, Bool.false_eq_true, if_false, List.countP_cons]
      simp [hexp]

lemma foldl_min_le_init (l : List ℚ) : ∀ m : ℚ, l.foldl min m ≤ m := by
  induction l with
  | nil => intro m; simp
  | cons a rest ih =>
    intro m
    simp only [List.foldl_cons]
    exact le_trans (ih (min m a)) (min_le_left m a)

lemma foldl_min_le_mem (l : List ℚ) :
    ∀ (m x : ℚ), x ∈ l → l.foldl min m ≤ x := by
  induction l with
  | nil => intro m x hx; cases hx
  | cons a rest ih =>
    intro m x hx
    rcases List.mem_cons.mp hx with h | h
    · subst h
      exact le_trans (foldl_min_le_init rest (min m x)) (min_le_right m x)
    · exact ih (min m a) x h

lemma foldl_min_eq_or_mem (l : List ℚ) :
    ∀ m : ℚ, l.foldl min m = m ∨ l.foldl min m ∈ l := by
  induction l with
  | nil => intro m; left; rfl
  | cons a rest ih =>
    intro m
    simp only [List.foldl_cons]
    rcases ih (min m a) with h | h
    · rcases le_total m a with hma | ham
      · left; rw [h, min_eq_left hma]
      · right; rw [h, min_eq_right ham]; exact List.mem_cons_self a rest
    · right; exact List.mem_cons_of_mem a h

lemma foldl_min_mem_of_le (l : List ℚ) (m : ℚ) (hne : l ≠ [])
    (hle : ∀ x ∈ l, x ≤ m) : l.foldl min m ∈ l := by
  rcases foldl_min_eq_or_mem l m with h | h
  · rcases List.exists_mem_of_ne_nil l hne with ⟨x, hx⟩
    have h1 := foldl_min_le_mem l m x hx
    have h2 := hle x hx
    have : l.foldl min m = x := le_antisymm h1 (by rw [h]; exact h2)
    rw [this]; exact hx
  · exact h

lemma foldl_min_nonneg (l : List ℚ) :
    ∀ m : ℚ, 0 ≤ m → (∀ x ∈ l, 0 ≤ x) → 0 ≤ l.foldl min m := by
  induction l with
  | nil => intro m hm _; simpa using hm
  | cons a rest ih =>
    intro m hm hx
    simp only [List.foldl_cons]
    refine ih (min m a) (le_min hm (hx a (List.mem_cons_self a rest))) ?_
    intro x hmem; exact hx x (List.mem_cons_of_mem a hmem)

lemma calcR_visited {db : DB} {now : Int} {fuel : Nat} {h : String}
    {visited : Finset String} (hmem : h ∈ visited) :
    calcR db now (fuel+1) h visited = some (cycleReport h, visited) := by
  simp [calcR, hmem]

lemma calcR_not_visited (db : DB) (now : Int) (fuel : Nat) (h : String)
    (visited : Finset String) (hmem : h ∉ visited) :
    calcR db now (fuel+1) h visited =
      match depFold (calcR db now fuel) (depsOf db h) (insert h visited) 1 ""
          (selfFactors db now h) with
      | none => none
      | some (minDep, wl, factors2, visitedOut) =>
        some ({ holonId := h,
                finalScore := if (depsOf db h).isEmpty then selfScoreOf db now h
                  else min (selfScoreOf db now h) minDep,
                selfScore := selfScoreOf db now h,
                weakestLink := wl, decayPenalty := decayOf db now h,
                factors := factors2 }, visitedOut) := by
  simp [calcR, hmem]

lemma calcR_some_spec {db : DB} {now : Int} {fuel : Nat} {h : String}
    {visited : Finset String} {r : AssuranceReport} {v : Finset String}
    (hmem : h ∉ visited)
    (heq : calcR db now (fuel+1) h visited = some (r, v)) :
    r.holonId = h ∧ r.selfScore = selfScoreOf db now h ∧
    r.decayPenalty = decayOf db now h ∧
    ∃ minDep wl factors2,
      depFold (calcR db now fuel) (depsOf db h) (insert h visited) 1 ""
        (selfFactors db now h) = some (minDep, wl, factors2, v) ∧
      r.weakestLink = wl ∧ r.factors = factors2 ∧
      r.finalScore = (if (depsOf db h).isEmpty then selfScoreOf db now h
        else min (selfScoreOf db now h) minDep) := by
  rw [calcR_not_visited db now fuel h visited hmem] at heq
  rcases hdf : depFold (calcR db now fuel) (depsOf db h) (insert h visited) 1 ""
      (selfFactors db now h) with _ | out
  · rw [hdf] at heq; cases heq
  · obtain ⟨minDep, wl, factors2, visitedOut⟩ := out
    rw [hdf] at heq
    simp only [Option.some.injEq, Prod.mk.injEq] at heq
    obtain ⟨hr, hv⟩ := heq
    subst hv
    exact ⟨by rw [← hr], by rw [← hr], by rw [← hr], minDep, wl, factors2, rfl,
      by rw [← hr], by rw [← hr], by rw [← hr]⟩

lemma depFold_spec (f : String → Finset String → Option (AssuranceReport × Finset String)) :
    ∀ (deps : List Dep) (v : Finset String) (m : ℚ) (wl : String) (fs : List String)
      (out : ℚ × String × List String × Finset String),
      depFold f deps v m wl fs = some out →
      ∃ l v2, depEffScores f deps v = some (l, v2) ∧ out.2.2.2 = v2 ∧
        out.1 = l.foldl min m := by
  intro deps
  induction deps with
  | nil =>
    intro v m wl fs out h
    simp only [depFold, Option.some.injEq] at h
    exact ⟨[], v, rfl, by rw [← h], by rw [← h]; rfl⟩
  | cons d rest ih =>
    intro v m wl fs out h
    simp only [depFold] at h
    rcases hf : f d.id v with _ | rv
    · rw [hf] at h; cases h
    · obtain ⟨rep, v2⟩ := rv
      rw [hf] at h
      obtain ⟨l, v3, hes, hout, hmin⟩ := ih v2 _ _ _ out h
      refine ⟨max 0 (rep.finalScore - calculateCLPenalty d.cl) :: l, v3, ?_, hout, ?_⟩
      · simp only [depEffScores, hf, hes]
      · rw [hmin, List.foldl_cons]
        congr 1
        rcases lt_or_le (max 0 (rep.finalScore - calculateCLPenalty d.cl)) m with hlt | hle
        · simp [hlt, min_eq_right (le_of_lt hlt)]
        · simp [not_lt.mpr hle, min_eq_left hle]

lemma depFold_min_bounds
    (f : String → Finset String → Option (AssuranceReport × Finset String))
    (hf : ∀ i v r v2, f i v = some (r, v2) → 0 ≤ r.finalScore ∧ r.finalScore ≤ 1) :
    ∀ (deps : List Dep) (v : Finset String) (m : ℚ) (wl : String) (fs : List String)
      (out : ℚ × String × List String × Finset String),
      depFold f deps v m wl fs = some out → 0 ≤ m → m ≤ 1 →
      0 ≤ out.1 ∧ out.1 ≤ 1 := by
  intro deps
  induction deps with
  | nil =>
    intro v m wl fs out h hm0 hm1
    simp only [depFold, Option.some.injEq] at h
    rw [← h]; exact ⟨hm0, hm1⟩
  | cons d rest ih =>
    intro v m wl fs out h hm0 hm1
    simp only [depFold] at h
    rcases hf2 : f d.id v with _ | rv
    · rw [hf2] at h; cases h
    · obtain ⟨rep, v2⟩ := rv
      rw [hf2] at h
      have hrep := hf d.id v rep v2 hf2
      have heffl : 0 ≤ max 0 (rep.finalScore - calculateCLPenalty d.cl) := le_max_left _ _
      have heffr : max 0 (rep.finalScore - calculateCLPenalty d.cl) ≤ 1 := by
        refine max_le (by norm_num) ?_
        have := clPenalty_nonneg d.cl
        linarith [hrep.2]
      refine ih v2 _ _ _ out h ?_ ?_ <;> split_ifs <;> assumption

lemma calcR_bounds (db : DB) (now : Int) :
    ∀ (fuel : Nat) (h : String) (visited : Finset String) (r : AssuranceReport)
      (v : Finset String), calcR db now fuel h visited = some (r, v) →
      (0 ≤ r.finalScore ∧ r.finalScore ≤ 1) ∧ (0 ≤ r.selfScore ∧ r.selfScore ≤ 1) := by
  intro fuel
  induction fuel with
  | zero => intro h visited r v heq; cases heq
  | succ fuel ih =>
    intro h visited r v heq
    by_cases hmem : h ∈ visited
    · rw [calcR_visited hmem] at heq
      simp only [Option.some.injEq, Prod.mk.injEq] at heq
      rw [← heq.1]
      norm_num [cycleReport]
    · obtain ⟨_, hself, _, minDep, wl, f2, hdf, _, _, hfinal⟩ := calcR_some_spec hmem heq
      have hs : 0 ≤ selfScoreOf db now h ∧ selfScoreOf db now h ≤ 1 := by
        unfold selfScoreOf
        split_ifs with he
        · norm_num
        · rw [evidenceFold_fst, ← List.foldl_map]
          constructor
          · refine foldl_min_nonneg _ 1 (by norm_num) ?_
            intro x hx
            obtain ⟨e, _, hxe⟩ := List.mem_map.mp hx
            rw [← hxe]; exact evidenceScore_nonneg now e
          · exact foldl_min_le_init _ 1
      have hdep : 0 ≤ minDep ∧ minDep ≤ 1 := by
        have := depFold_min_bounds (calcR db now fuel)
          (fun i vv rr vv2 hh => (ih i vv rr vv2 hh).1)
          (depsOf db h) (insert h visited) 1 "" (selfFactors db now h)
          (minDep, wl, f2, v) hdf (by norm_num) (by norm_num)
        exact this
      constructor
      · rw [hfinal]
        split_ifs
        · exact hs
        · exact ⟨le_min hs.1 hdep.1, le_trans (min_le_left _ _) hs.2⟩
      · rw [hself]; exact hs

lemma depsOf_mem_relIds (db : DB) (h : String) :
    ∀ d ∈ depsOf db h, d.id ∈ relIds db := by
  intro d hd
  unfold depsOf at hd
  have hd2 := List.mem_dedup.mp hd
  unfold relIds
  rcases List.mem_append.mp hd2 with hmem | hmem
  · obtain ⟨rel, hrel, hEq⟩ := List.mem_map.mp hmem
    apply Finset.mem_union_left
    rw [List.mem_toFinset, ← hEq]
    exact List.mem_map_of_mem _ (List.mem_of_mem_filter hrel)
  · obtain ⟨rel, hrel, hEq⟩ := List.mem_map.mp hmem
    apply Finset.mem_union_right
    rw [List.mem_toFinset, ← hEq]
    exact List.mem_map_of_mem _ (List.mem_of_mem_filter hrel)

lemma depFold_total (db : DB) (now : Int) (fuel : Nat)
    (ih : ∀ (h : String) (visited : Finset String),
      ((relIds db) \ visited).card < fuel → h ∈ relIds db ∨ h ∈ visited →
      ∃ r v, calcR db now fuel h visited = some (r, v) ∧ visited ⊆ v) :
    ∀ (deps : List Dep) (v : Finset String) (m : ℚ) (wl : String) (fs : List String),
      (∀ d ∈ deps, d.id ∈ relIds db) → ((relIds db) \ v).card < fuel →
      ∃ minDep wl2 f2 vo,
        depFold (calcR db now fuel) deps v m wl fs = some (minDep, wl2, f2, vo) ∧
        v ⊆ vo := by
  intro deps
  induction deps with
  | nil =>
    intro v m wl fs _ _
    exact ⟨m, wl, fs, v, rfl, Finset.Subset.refl v⟩
  | cons d rest ihl =>
    intro v m wl fs hmem hcard
    obtain ⟨r, v2, hc, hsub⟩ := ih d.id v hcard (Or.inl (hmem d (List.mem_cons_self d rest)))
    have hcard2 : ((relIds db) \ v2).card < fuel := by
      refine lt_of_le_of_lt (Finset.card_le_card ?_) hcard
      exact Finset.sdiff_subset_sdiff (Finset.Subset.refl _) hsub
    obtain ⟨minDep, wl2, f2, vo, hdf, hsub2⟩ :=
      ihl v2 (if max 0 (r.finalScore - calculateCLPenalty d.cl) < m
          then max 0 (r.finalScore - calculateCLPenalty d.cl) else m)
        (if max 0 (r.finalScore - calculateCLPenalty d.cl) < m then d.id else wl)
        (if calculateCLPenalty d.cl > 0 then fs ++ ["CL Penalty applied for " ++ d.id] else fs)
        (fun dd hdd => hmem dd (List.mem_cons_of_mem d hdd)) hcard2
    refine ⟨minDep, wl2, f2, vo, ?_, Finset.Subset.trans hsub hsub2⟩
    simp only [depFold, hc]
    split_ifs at hdf ⊢ <;> simp_all

lemma calcR_total_aux (db : DB) (now : Int) :
    ∀ (fuel : Nat) (h : String) (visited : Finset String),
      ((relIds db) \ visited).card < fuel → h ∈ relIds db ∨ h ∈ visited →
      ∃ r v, calcR db now fuel h visited = some (r, v) ∧ visited ⊆ v := by
  intro fuel
  induction fuel with
  | zero => intro h visited hcard _; omega
  | succ fuel ih =>
    intro h visited hcard hmem
    by_cases hv : h ∈ visited
    · exact ⟨cycleReport h, visited, calcR_visited hv, Finset.Subset.refl _⟩
    · have hU : h ∈ relIds db := hmem.resolve_right hv
      have hcard2 : ((relIds db) \ (insert h visited)).card < fuel := by
        have hss : (relIds db) \ (insert h visited) ⊂ (relIds db) \ visited := by
          refine (Finset.ssubset_iff_of_subset
            (Finset.sdiff_subset_sdiff (Finset.Subset.refl _) (Finset.subset_insert h visited))).mpr
            ⟨h, Finset.mem_sdiff.mpr ⟨hU, hv⟩, ?_⟩
          simp
        have := Finset.card_lt_card hss
        omega
      obtain ⟨minDep, wl2, f2, vo, hdf, hsubdf⟩ :=
        depFold_total db now fuel ih (depsOf db h) (insert h visited) 1 ""
          (selfFactors db now h) (depsOf_mem_relIds db h) hcard2
      refine ⟨{ holonId := h,
                finalScore := if (depsOf db h).isEmpty then selfScoreOf db now h
                  else min (selfScoreOf db now h) minDep,
                selfScore := selfScoreOf db now h,
                weakestLink := wl2, decayPenalty := decayOf db now h,
                factors := f2 }, vo, ?_,
        Finset.Subset.trans (Finset.subset_insert h visited) hsubdf⟩
      rw [calcR_not_visited db now fuel h visited hv, hdf]

lemma computeReliability_total (db : DB) (now : Int) (h : String) :
    ∃ r, computeReliability db now h = some r := by
  unfold computeReliability
  by_cases hU : h ∈ relIds db
  · obtain ⟨r, v, heq, _⟩ := calcR_total_aux db now ((relIds db).card + 2) h ∅
      (by simp only [Finset.sdiff_empty]; omega) (Or.inl hU)
    exact ⟨r, by rw [heq]; rfl⟩
  · have hsplit : (relIds db).card + 2 = ((relIds db).card + 1) + 1 := rfl
    rw [hsplit, calcR_not_visited db now _ h ∅ (Finset.not_mem_empty h)]
    have hcard : ((relIds db) \ (insert h ∅)).card < (relIds db).card + 1 := by
      have := Finset.card_le_card (Finset.sdiff_subset (s := relIds db) (t := insert h ∅))
      omega
    obtain ⟨minDep, wl2, f2, vo, hdf, _⟩ :=
      depFold_total db now ((relIds db).card + 1)
        (fun h2 v2 hc hm => calcR_total_aux db now _ h2 v2 hc hm)
        (depsOf db h) (insert h ∅) 1 "" (selfFactors db now h)
        (depsOf_mem_relIds db h) hcard
    rw [hdf]
    exact ⟨_, rfl⟩

lemma evidenceScore_eq_specItemScore (now : Int) (e : Evid) :
    evidenceScore now e = specItemScore now e := by
  unfold evidenceScore specItemScore
  split_ifs with h1 h2
  · rfl
  · rfl
  · have hp := evidenceTypePenalty_nonneg e.type
    have hp0 : evidenceTypeToCLPenalty e.type = 0 := le_antisymm (not_lt.mp h2) hp
    rw [hp0, sub_zero, max_eq_right (verdictScore_nonneg _)]

lemma selfScoreOf_empty (db : DB) (now : Int) (h : String)
    (he : evidenceOf db h = []) : selfScoreOf db now h = 0 := by
  unfold selfScoreOf
  rw [he]
  rfl

lemma selfScoreOf_min (db : DB) (now : Int) (h : String)
    (he : evidenceOf db h ≠ []) :
    selfScoreOf db now h = ((evidenceOf db h).map (evidenceScore now)).foldl min 1 := by
  unfold selfScoreOf
  rw [if_neg (by simpa using he), evidenceFold_fst, ← List.foldl_map]

lemma selfScoreOf_is_min (db : DB) (now : Int) (h : String)
    (he : evidenceOf db h ≠ []) :
    (∀ e ∈ evidenceOf db h, selfScoreOf db now h ≤ evidenceScore now e) ∧
    (∃ e ∈ evidenceOf db h, selfScoreOf db now h = evidenceScore now e) := by
  rw [selfScoreOf_min db now h he]
  constructor
  · intro e hmem
    exact foldl_min_le_mem _ 1 _ (List.mem_map_of_mem _ hmem)
  · have hmem : ((evidenceOf db h).map (evidenceScore now)).foldl min 1 ∈
        (evidenceOf db h).map (evidenceScore now) := by
      refine foldl_min_mem_of_le _ 1 (by simpa using he) ?_
      intro x hx
      obtain ⟨e, _, hxe⟩ := List.mem_map.mp hx
      rw [← hxe]; exact evidenceScore_le_one now e
    obtain ⟨e, hmem2, hxe⟩ := List.mem_map.mp hmem
    exact ⟨e, hmem2, hxe.symm⟩

lemma decayOf_count (db : DB) (now : Int) (h : String) :
    decayOf db now h =
      (9/10) * ((evidenceOf db h).countP (fun e => isExpired now e) : ℚ) := by
  unfold decayOf
  rw [evidenceFold_decay]
  ring

lemma depEffScores_mem_le_one
    (f : String → Finset String → Option (AssuranceReport × Finset String))
    (hf : ∀ i v r v2, f i v = some (r, v2) → r.finalScore ≤ 1) :
    ∀ (deps : List Dep) (v : Finset String) (l : List ℚ) (v2 : Finset String),
      depEffScores f deps v = some (l, v2) → ∀ x ∈ l, x ≤ 1 := by
  intro deps
  induction deps with
  | nil =>
    intro v l v2 heq x hx
    simp only [depEffScores, Option.some.injEq, Prod.mk.injEq] at heq
    rw [← heq.1] at hx
    cases hx
  | cons d rest ih =>
    intro v l v2 heq x hx
    simp only [depEffScores] at heq
    rcases hf2 : f d.id v with _ | rv
    · rw [hf2] at heq; cases heq
    · obtain ⟨rep, vmid⟩ := rv
      rw [hf2] at heq
      dsimp only at heq
      rcases hes : depEffScores f rest vmid with _ | lv
      · rw [hes] at heq; cases heq
      · obtain ⟨l2, v3⟩ := lv
        rw [hes] at heq
        simp only [Option.some.injEq, Prod.mk.injEq] at heq
        rw [← heq.1] at hx
        rcases List.mem_cons.mp hx with hx1 | hx1
        · rw [hx1]
          refine max_le (by norm_num) ?_
          have := clPenalty_nonneg d.cl
          linarith [hf d.id v rep vmid hf2]
        · exact ih vmid l2 v3 hes x hx1

lemma depEffScores_length
    (f : String → Finset String → Option (AssuranceReport × Finset String)) :
    ∀ (deps : List Dep) (v : Finset String) (l : List ℚ) (v2 : Finset String),
      depEffScores f deps v = some (l, v2) → l.length = deps.length := by
  intro deps
  induction deps with
  | nil =>
    intro v l v2 heq
    simp only [depEffScores, Option.some.injEq, Prod.mk.injEq] at heq
    rw [← heq.1]; rfl
  | cons d rest ih =>
    intro v l v2 heq
    simp only [depEffScores] at heq
    rcases hf2 : f d.id v with _ | rv
    · rw [hf2] at heq; cases heq
    · obtain ⟨rep, vmid⟩ := rv
      rw [hf2] at heq
      dsimp only at heq
      rcases hes : depEffScores f rest vmid with _ | lv
      · rw [hes] at heq; cases heq
      · obtain ⟨l2, v3⟩ := lv
        rw [hes] at heq
        simp only [Option.some.injEq, Prod.mk.injEq] at heq
        rw [← heq.1]
        simp [ih vmid l2 v3 hes]

lemma depFold_congr
    (f1 f2 : String → Finset String → Option (AssuranceReport × Finset String))
    (hf : ∀ i v, f1 i v = f2 i v) :
    ∀ (deps : List Dep) (v : Finset String) (m : ℚ) (wl : String) (fs : List String),
      depFold f1 deps v m wl fs = depFold f2 deps v m wl fs := by
  intro deps
  induction deps with
  | nil => intro v m wl fs; rfl
  | cons d rest ih =>
    intro v m wl fs
    simp only [depFold, hf d.id v]
    rcases f2 d.id v with _ | rv
    · rfl
    · obtain ⟨rep, v2⟩ := rv
      exact ih v2 _ _ _

lemma calcR_congr (db1 db2 : DB) (now : Int)
    (hev : db1.evidence = db2.evidence) (hrel : db1.relations = db2.relations) :
    ∀ (fuel : Nat) (h : String) (v : Finset String),
      calcR db1 now fuel h v = calcR db2 now fuel h v := by
  have hevOf : ∀ h, evidenceOf db1 h = evidenceOf db2 h := by
    intro h; unfold evidenceOf; rw [hev]
  have hdeps : ∀ h, depsOf db1 h = depsOf db2 h := by
    intro h; unfold depsOf; rw [hrel]
  have hselfOf : ∀ h, selfScoreOf db1 now h = selfScoreOf db2 now h := by
    intro h; unfold selfScoreOf; rw [hevOf]
  have hdecayOf : ∀ h, decayOf db1 now h = decayOf db2 now h := by
    intro h; unfold decayOf; rw [hevOf]
  have hfactOf : ∀ h, selfFactors db1 now h = selfFactors db2 now h := by
    intro h; unfold selfFactors; rw [hevOf]
  intro fuel
  induction fuel with
  | zero => intro h v; rfl
  | succ fuel ih =>
    intro h v
    by_cases hv : h ∈ v
    · rw [calcR_visited hv, calcR_visited hv]
    · rw [calcR_not_visited db1 now fuel h v hv, calcR_not_visited db2 now fuel h v hv]
      rw [hdeps, hselfOf, hdecayOf, hfactOf]
      rw [depFold_congr (calcR db1 now fuel) (calcR db2 now fuel) (fun i vv => ih i vv)]

lemma relIds_congr (db1 db2 : DB) (hrel : db1.relations = db2.relations) :
    relIds db1 = relIds db2 := by
  unfold relIds; rw [hrel]

lemma computeReliability_congr (db1 db2 : DB) (now : Int)
    (hev : db1.evidence = db2.evidence) (hrel : db1.relations = db2.relations)
    (h : String) :
    computeReliability db1 now h = computeReliability db2 now h := by
  unfold computeReliability
  rw [relIds_congr db1 db2 hrel, calcR_congr db1 db2 now hev hrel]

lemma getDependencies_target_mem (db : DB) (s : String) :
    ∀ r ∈ getDependencies db s, r.targetId ∈ relIds db := by
  intro r hr
  unfold getDependencies at hr
  unfold relIds
  apply Finset.mem_union_right
  rw [List.mem_toFinset]
  exact List.mem_map_of_mem _ (List.mem_of_mem_filter hr)

lemma depEdge_iff_getDependencies (db : DB) (x y : String) :
    depEdge db x y ↔ ∃ r ∈ getDependencies db x, r.targetId = y := by
  unfold depEdge getDependencies
  constructor
  · rintro ⟨r, hmem, hsrc, htgt, htyp⟩
    exact ⟨r, List.mem_filter.mpr ⟨hmem, by simp [hsrc, htyp]⟩, htgt⟩
  · rintro ⟨r, hmem, htgt⟩
    obtain ⟨hmem2, hprop⟩ := List.mem_filter.mp hmem
    simp only [decide_eq_true_eq] at hprop
    exact ⟨r, hmem2, hprop.1, htgt, hprop.2⟩

lemma isReachable_step (db : DB) (fuel : Nat) (a b : String) (v : Finset String)
    (hab : a ≠ b) (hv : a ∉ v) :
    isReachable db (fuel+1) a b v =
      reachFold (fun x vv => isReachable db fuel x b vv)
        (getDependencies db a) (insert a v) := by
  have h0 : isReachable db (fuel+1) a b v =
      if a = b then some (true, v)
      else if a ∈ v then some (false, v)
      else reachFold (fun x vv => isReachable db fuel x b vv)
        (getDependencies db a) (insert a v) := rfl
  rw [h0, if_neg hab, if_neg hv]

lemma reachFold_total (db : DB) (b : String) (fuel : Nat)
    (ih : ∀ (a : String) (v : Finset String),
      ((relIds db) \ v).card < fuel → a ∈ relIds db ∨ a ∈ v →
      ∃ res v2, isReachable db fuel a b v = some (res, v2) ∧ v ⊆ v2) :
    ∀ (l : List Rel) (v : Finset String),
      (∀ r ∈ l, r.targetId ∈ relIds db) → ((relIds db) \ v).card < fuel →
      ∃ res v2, reachFold (fun x vv => isReachable db fuel x b vv) l v = some (res, v2) ∧
        v ⊆ v2 := by
  intro l
  induction l with
  | nil => exact fun v _ _ => ⟨false, v, rfl, Finset.Subset.refl v⟩
  | cons r rest ihl =>
    intro v hmem hcard
    obtain ⟨res, v2, heq, hsub⟩ := ih r.targetId v hcard
      (Or.inl (hmem r (List.mem_cons_self r rest)))
    rcases res with _ | _
    · have hcard2 : ((relIds db) \ v2).card < fuel := by
        refine lt_of_le_of_lt (Finset.card_le_card ?_) hcard
        exact Finset.sdiff_subset_sdiff (Finset.Subset.refl _) hsub
      obtain ⟨res2, v3, heq2, hsub2⟩ := ihl v2
        (fun rr hrr => hmem rr (List.mem_cons_of_mem r hrr)) hcard2
      refine ⟨res2, v3, ?_, Finset.Subset.trans hsub hsub2⟩
      simp only [reachFold, heq]
      exact heq2
    · refine ⟨true, v2, ?_, hsub⟩
      simp only [reachFold, heq]

lemma isReachable_total_aux (db : DB) (b : String) :
    ∀ (fuel : Nat) (a : String) (v : Finset String),
      ((relIds db) \ v).card < fuel → a ∈ relIds db ∨ a ∈ v →
      ∃ res v2, isReachable db fuel a b v = some (res, v2) ∧ v ⊆ v2 := by
  intro fuel
  induction fuel with
  | zero => intro a v hcard _; omega
  | succ fuel ih =>
    intro a v hcard hmem
    by_cases hab : a = b
    · exact ⟨true, v, by simp [isReachable, hab], Finset.Subset.refl v⟩
    · by_cases hv : a ∈ v
      · exact ⟨false, v, by simp [isReachable, hab, hv], Finset.Subset.refl v⟩
      · have hU : a ∈ relIds db := hmem.resolve_right hv
        have hcard2 : ((relIds db) \ (insert a v)).card < fuel := by
          have hss : (relIds db) \ (insert a v) ⊂ (relIds db) \ v := by
            refine (Finset.ssubset_iff_of_subset
              (Finset.sdiff_subset_sdiff (Finset.Subset.refl _)
                (Finset.subset_insert a v))).mpr
              ⟨a, Finset.mem_sdiff.mpr ⟨hU, hv⟩, ?_⟩
            simp
          have := Finset.card_lt_card hss
          omega
        obtain ⟨res, v2, heq, hsub⟩ := reachFold_total db b fuel ih
          (getDependencies db a) (insert a v)
          (getDependencies_target_mem db a) hcard2
        refine ⟨res, v2, ?_, Finset.Subset.trans (Finset.subset_insert a v) hsub⟩
        rw [isReachable_step db fuel a b v hab hv]
        exact heq

lemma wouldCreateCycle_total (db : DB) (s t : String) :
    ∃ res, wouldCreateCycle db s t = some res := by
  unfold wouldCreateCycle
  by_cases hU : t ∈ relIds db
  · obtain ⟨res, v2, heq, _⟩ := isReachable_total_aux db s ((relIds db).card + 2) t ∅
      (by simp only [Finset.sdiff_empty]; omega) (Or.inl hU)
    exact ⟨res, by rw [heq]; rfl⟩
  · by_cases hts : t = s
    · have hsplit : (relIds db).card + 2 = ((relIds db).card + 1) + 1 := rfl
      rw [hsplit]
      exact ⟨true, by simp [isReachable, hts]⟩
    · have hsplit : (relIds db).card + 2 = ((relIds db).card + 1) + 1 := rfl
      rw [hsplit]
      have hcard : ((relIds db) \ (insert t ∅)).card < (relIds db).card + 1 := by
        have := Finset.card_le_card (Finset.sdiff_subset (s := relIds db) (t := insert t ∅))
        omega
      obtain ⟨res, v2, heq, _⟩ := reachFold_total db s ((relIds db).card + 1)
        (fun a2 v2 hc hm => isReachable_total_aux db s _ a2 v2 hc hm)
        (getDependencies db t) (insert t ∅)
        (getDependencies_target_mem db t) hcard
      refine ⟨res, ?_⟩
      rw [isReachable_step db ((relIds db).card + 1) t s ∅ hts (Finset.not_mem_empty t), heq]
      rfl

lemma reachFold_sound
    (f : String → Finset String → Option (Bool × Finset String)) :
    ∀ (l : List Rel) (v v2 : Finset String),
      reachFold f l v = some (true, v2) →
      ∃ r ∈ l, ∃ vm v3, f r.targetId vm = some (true, v3) := by
  intro l
  induction l with
  | nil =>
    intro v v2 heq
    simp only [reachFold, Option.some.injEq, Prod.mk.injEq] at heq
    cases heq.1
  | cons r rest ihl =>
    intro v v2 heq
    simp only [reachFold] at heq
    rcases hf : f r.targetId v with _ | bv
    · rw [hf] at heq; cases heq
    · obtain ⟨res, vm⟩ := bv
      rw [hf] at heq
      rcases res with _ | _
      · dsimp only at heq
        obtain ⟨r2, hmem, hrest⟩ := ihl vm v2 heq
        exact ⟨r2, List.mem_cons_of_mem r hmem, hrest⟩
      · exact ⟨r, List.mem_cons_self r rest, v, vm, hf⟩

lemma isReachable_sound (db : DB) (b : String) :
    ∀ (fuel : Nat) (a : String) (v v2 : Finset String),
      isReachable db fuel a b v = some (true, v2) → Reaches db a b := by
  intro fuel
  induction fuel with
  | zero => intro a v v2 heq; cases heq
  | succ fuel ih =>
    intro a v v2 heq
    by_cases hab : a = b
    · rw [hab]; exact Relation.ReflTransGen.refl
    · by_cases hv : a ∈ v
      · rw [show isReachable db (fuel+1) a b v =
              (if a = b then some (true, v)
               else if a ∈ v then some (false, v)
               else reachFold (fun x vv => isReachable db fuel x b vv)
                 (getDependencies db a) (insert a v)) from rfl,
            if_neg hab, if_pos hv] at heq
        cases heq
      · rw [isReachable_step db fuel a b v hab hv] at heq
        obtain ⟨r, hmem, vm, v3, hf⟩ :=
          reachFold_sound _ (getDependencies db a) (insert a v) v2 heq
        have hedge : depEdge db a r.targetId :=
          (depEdge_iff_getDependencies db a r.targetId).mpr ⟨r, hmem, rfl⟩
        exact Relation.ReflTransGen.head hedge (ih r.targetId vm v3 hf)

lemma reachFold_closed (db : DB) (b : String) (fuel : Nat)
    (ihF : ∀ (a : String) (v v2 : Finset String),
      isReachable db fuel a b v = some (false, v2) →
      a ∈ v2 ∧ v ⊆ v2 ∧ (b ∉ v2 ∨ b ∈ v) ∧
      (∀ x ∈ v2, x ∉ v → ∀ r ∈ getDependencies db x, r.targetId ∈ v2)) :
    ∀ (l : List Rel) (v v2 : Finset String),
      reachFold (fun x vv => isReachable db fuel x b vv) l v = some (false, v2) →
      v ⊆ v2 ∧ (∀ r ∈ l, r.targetId ∈ v2) ∧ (b ∉ v2 ∨ b ∈ v) ∧
      (∀ x ∈ v2, x ∉ v → ∀ r ∈ getDependencies db x, r.targetId ∈ v2) := by
  intro l
  induction l with
  | nil =>
    intro v v2 heq
    simp only [reachFold, Option.some.injEq, Prod.mk.injEq] at heq
    obtain ⟨_, hv⟩ := heq
    subst hv
    refine ⟨Finset.Subset.refl v, ?_, (em (b ∈ v)).symm, ?_⟩
    · intro rr hrr; cases hrr
    · intro x hx hnx; exact absurd hx hnx
  | cons r rest ihl =>
    intro v v2 heq
    simp only [reachFold] at heq
    rcases hf : isReachable db fuel r.targetId b v with _ | bv
    · rw [hf] at heq; cases heq
    · obtain ⟨res, vm⟩ := bv
      rw [hf] at heq
      rcases res with _ | _
      · dsimp only at heq
        obtain ⟨htv, hv_vm, hb1, hcl1⟩ := ihF r.targetId v vm hf
        obtain ⟨hvm_v2, htargets, hb2, hcl2⟩ := ihl vm v2 heq
        refine ⟨Finset.Subset.trans hv_vm hvm_v2, ?_, ?_, ?_⟩
        · intro rr hrr
          rcases List.mem_cons.mp hrr with h1 | h1
          · rw [h1]; exact hvm_v2 htv
          · exact htargets rr h1
        · rcases hb2 with h2 | h2
          · exact Or.inl h2
          · rcases hb1 with h1 | h1
            · exact absurd h2 h1
            · exact Or.inr h1
        · intro x hx hnx
          by_cases hxm : x ∈ vm
          · intro rr hrr
            exact hvm_v2 (hcl1 x hxm hnx rr hrr)
          · intro rr hrr
            exact hcl2 x hx hxm rr hrr
      · cases heq

lemma isReachable_closed (db : DB) (b : String) :
    ∀ (fuel : Nat) (a : String) (v v2 : Finset String),
      isReachable db fuel a b v = some (false, v2) →
      a ∈ v2 ∧ v ⊆ v2 ∧ (b ∉ v2 ∨ b ∈ v) ∧
      (∀ x ∈ v2, x ∉ v → ∀ r ∈ getDependencies db x, r.targetId ∈ v2) := by
  intro fuel
  induction fuel with
  | zero => intro a v v2 heq; cases heq
  | succ fuel ih =>
    intro a v v2 heq
    have hunf : isReachable db (fuel+1) a b v =
        (if a = b then some (true, v)
         else if a ∈ v then some (false, v)
         else reachFold (fun x vv => isReachable db fuel x b vv)
           (getDependencies db a) (insert a v)) := rfl
    by_cases hab : a = b
    · rw [hunf, if_pos hab] at heq; cases heq
    · by_cases hv : a ∈ v
      · rw [hunf, if_neg hab, if_pos hv] at heq
        simp only [Option.some.injEq, Prod.mk.injEq] at heq
        obtain ⟨_, hveq⟩ := heq
        subst hveq
        refine ⟨hv, Finset.Subset.refl v, (em (b ∈ v)).symm, ?_⟩
        intro x hx hnx; exact absurd hx hnx
      · rw [isReachable_step db fuel a b v hab hv] at heq
        obtain ⟨hsub, htargets, hb, hcl⟩ :=
          reachFold_closed db b fuel ih (getDependencies db a) (insert a v) v2 heq
        have hsubv : v ⊆ v2 :=
          Finset.Subset.trans (Finset.subset_insert a v) hsub
        have hav2 : a ∈ v2 := hsub (Finset.mem_insert_self a v)
        refine ⟨hav2, hsubv, ?_, ?_⟩
        · rcases hb with h1 | h1
          · exact Or.inl h1
          · rcases Finset.mem_insert.mp h1 with h2 | h2
            · exact absurd h2.symm hab
            · exact Or.inr h2
        · intro x hx hnx
          by_cases hxa : x = a
          · subst hxa
            intro rr hrr
            exact htargets rr hrr
          · intro rr hrr
            refine hcl x hx ?_ rr hrr
            intro hmem
            rcases Finset.mem_insert.mp hmem with h2 | h2
            · exact hxa h2
            · exact hnx h2

lemma isReachable_complete (db : DB) (a b : String) (fuel : Nat) (v2 : Finset String)
    (heq : isReachable db fuel a b ∅ = some (false, v2)) : ¬ Reaches db a b := by
  obtain ⟨ha, _, hb, hcl⟩ := isReachable_closed db b fuel a ∅ v2 heq
  have hbnot : b ∉ v2 := by
    rcases hb with h | h
    · exact h
    · exact absurd h (Finset.not_mem_empty b)
  intro hr
  have hmem : ∀ c, Relation.ReflTransGen (depEdge db) a c → c ∈ v2 := by
    intro c hc
    induction hc with
    | refl => exact ha
    | tail hstep hedge ih2 =>
      obtain ⟨r, hrmem, htgt⟩ := (depEdge_iff_getDependencies db _ _).mp hedge
      rw [← htgt]
      exact hcl _ ih2 (Finset.not_mem_empty _) r hrmem
  exact hbnot (hmem b hr)

lemma wouldCreateCycle_iff (db : DB) (s t : String) :
    wouldCreateCycle db s t = some true ↔ Reaches db t s := by
  constructor
  · intro h
    unfold wouldCreateCycle at h
    rcases hir : isReachable db ((relIds db).card + 2) t s ∅ with _ | rv
    · rw [hir] at h; cases h
    · obtain ⟨res, v2⟩ := rv
      rw [hir] at h
      simp only [Option.map_some', Option.some.injEq] at h
      rw [h] at hir
      exact isReachable_sound db s ((relIds db).card + 2) t ∅ v2 hir
  · intro hr
    obtain ⟨res, hres⟩ := wouldCreateCycle_total db s t
    rcases res with _ | _
    · exfalso
      unfold wouldCreateCycle at hres
      rcases hir : isReachable db ((relIds db).card + 2) t s ∅ with _ | rv
      · rw [hir] at hres; cases hres
      · obtain ⟨res2, v2⟩ := rv
        rw [hir] at hres
        simp only [Option.map_some', Option.some.injEq] at hres
        rw [hres] at hir
        exact isReachable_complete db t s ((relIds db).card + 2) v2 hir hr
    · exact hres

lemma lower_internal : lower "internal" = "internal" := by decide

lemma lower_pass : lower "pass" = "pass" := by decide

lemma lower_degrade : lower "degrade" = "degrade" := by decide

lemma lower_fail : lower "fail" = "fail" := by decide

lemma lower_external : lower "external" = "external" := by decide

lemma lower_research : lower "research" = "research" := by decide

lemma lower_audit_report : lower "audit_report" = "audit_report" := by decide


/-! Claim theorems. -/

/-- C5: computeReliability terminates on every dependency graph, including
cyclic ones, because each holon id is visited at most once per top-level call
(the fuel bound derived from the visited-set argument always suffices), and a
call on a holon id already in the visited set returns immediately with the
neutral report whose score is exactly 1.0 — never infinite recursion (fuel
exhaustion) and never a zeroed score. -/
theorem claim_C5_termination :
    (∀ (db : DB) (now : Int) (h : String), ∃ r, computeReliability db now h = some r) ∧
    (∀ (db : DB) (now : Int) (fuel : Nat) (h : String) (visited : Finset String),
      h ∈ visited →
      calcR db now (fuel+1) h visited = some (cycleReport h, visited) ∧
      (cycleReport h).finalScore = 1 ∧ (cycleReport h).selfScore = 1) := by
  refine ⟨computeReliability_total, ?_⟩
  intro db now fuel h visited hmem
  exact ⟨calcR_visited hmem, rfl, rfl⟩

/-- Witness for C5: the two-node dependency cycle terminates, and a revisited
node yields the neutral report. -/
theorem claim_C5_termination_witness :
    (∃ r, computeReliability dbCyc 0 "a" = some r) ∧
    calcR dbCyc 0 1 "a" {"a"} = some (cycleReport "a", {"a"}) := by
  refine ⟨claim_C5_termination.1 dbCyc 0 "a", ?_⟩
  exact (claim_C5_termination.2 dbCyc 0 0 "a" {"a"} (by decide)).1

/-- C4: the Self Score produced by the calculator is the minimum, over all of
the holon's evidence items, of the specification's per-item score — max(0,
verdict base score minus type penalty), subject to the expiry override — and a
holon with no evidence items has Self Score exactly 0. -/
theorem claim_C4_self_score (db : DB) (now : Int) (fuel : Nat) (h : String)
    (r : AssuranceReport) (v : Finset String)
    (heq : calcR db now (fuel+1) h ∅ = some (r, v)) :
    (evidenceOf db h = [] → r.selfScore = 0) ∧
    (evidenceOf db h ≠ [] →
      (∀ e ∈ evidenceOf db h, r.selfScore ≤ specItemScore now e) ∧
      (∃ e ∈ evidenceOf db h, r.selfScore = specItemScore now e)) := by
  obtain ⟨_, hself, _⟩ := calcR_some_spec (Finset.not_mem_empty h) heq
  constructor
  · intro he
    rw [hself, selfScoreOf_empty db now h he]
  · intro hne
    obtain ⟨hle, hex⟩ := selfScoreOf_is_min db now h hne
    constructor
    · intro e hm
      rw [hself, ← evidenceScore_eq_specItemScore]
      exact hle e hm
    · obtain ⟨e, hm, heq2⟩ := hex
      exact ⟨e, hm, by rw [hself, heq2, evidenceScore_eq_specItemScore]⟩

/-- Witness for C4: with a pass/internal and a degrade/external item the Self
Score is 0.4, the minimum of the two per-item scores. -/
theorem claim_C4_self_score_witness :
    (evidenceOf dbW4 "a" = [] → rW4.selfScore = 0) ∧
    (evidenceOf dbW4 "a" ≠ [] →
      (∀ e ∈ evidenceOf dbW4 "a", rW4.selfScore ≤ specItemScore 0 e) ∧
      (∃ e ∈ evidenceOf dbW4 "a", rW4.selfScore = specItemScore 0 e)) := by
  refine claim_C4_self_score dbW4 0 0 "a" rW4 (insert "a" ∅) ?_
  norm_num +decide [calcR, dbW4, rW4, depsOf, evidenceOf, evidenceFold, depFold,
    verdictScore, evidenceTypeToCLPenalty, isExpired, selfScoreOf, decayOf, selfFactors,
    lower_internal, lower_pass, lower_degrade, lower_external, min_def, max_def]

/-- C9: createRelation with equal source and target ids always fails with the
self-relation validation error, for every relation type and congruence level,
and never returns a database, so no such edge is ever stored. -/
theorem claim_C9_self_relation (db : DB) (x relationType : String) (cl : Int) :
    createRelation db x relationType x cl = Except.error "holon cannot relate to itself" ∧
    ∀ db2, createRelation db x relationType x cl ≠ Except.ok db2 := by
  constructor
  · unfold createRelation
    rw [if_pos rfl]
  · intro db2 hcontra
    unfold createRelation at hcontra
    rw [if_pos rfl] at hcontra
    cases hcontra

/-- C3: with at least one dependency the Final Score is min(Self Score,
minimum over the dependencies of max(0, dependency Final Score minus the
congruence penalty)), where the penalty table for levels 3/2/1/other is
0.0/0.1/0.4/0.9; with no dependencies the Final Score is the Self Score alone,
and the Final Score never exceeds the Self Score. -/
theorem claim_C3_final_score (db : DB) (now : Int) (fuel : Nat) (h : String)
    (r : AssuranceReport) (v : Finset String)
    (heq : calcR db now (fuel+1) h ∅ = some (r, v)) :
    (calculateCLPenalty 3 = 0 ∧ calculateCLPenalty 2 = 1/10 ∧
      calculateCLPenalty 1 = 2/5 ∧ calculateCLPenalty 0 = 9/10) ∧
    (depsOf db h = [] → r.finalScore = r.selfScore) ∧
    (depsOf db h ≠ [] → ∃ l v2,
      depEffScores (calcR db now fuel) (depsOf db h) (insert h ∅) = some (l, v2) ∧
      l ≠ [] ∧ r.finalScore = min r.selfScore (l.foldl min 1) ∧
      l.foldl min 1 ∈ l ∧ (∀ x ∈ l, l.foldl min 1 ≤ x)) ∧
    r.finalScore ≤ r.selfScore := by
  obtain ⟨_, hself, _, minDep, wl, f2, hdf, _, _, hfinal⟩ :=
    calcR_some_spec (Finset.not_mem_empty h) heq
  obtain ⟨l, v2, hes, _, hmin⟩ := depFold_spec _ _ _ _ _ _ _ hdf
  have htable : calculateCLPenalty 3 = 0 ∧ calculateCLPenalty 2 = 1/10 ∧
      calculateCLPenalty 1 = 2/5 ∧ calculateCLPenalty 0 = 9/10 := by
    refine ⟨?_, ?_, ?_, ?_⟩ <;> norm_num [calculateCLPenalty]
  refine ⟨htable, ?_, ?_, ?_⟩
  · intro hemp
    rw [hfinal, if_pos (by simpa using hemp), hself]
  · intro hne
    have hlne : l ≠ [] := by
      have hlen := depEffScores_length _ _ _ _ _ hes
      intro hcontra
      rw [hcontra] at hlen
      exact hne (List.eq_nil_of_length_eq_zero hlen.symm)
    have hle1 : ∀ x ∈ l, x ≤ 1 := by
      refine depEffScores_mem_le_one (calcR db now fuel) ?_ (depsOf db h) _ l v2 hes
      intro i vv rr vv2 hh
      exact ((calcR_bounds db now fuel i vv rr vv2 hh).1).2
    refine ⟨l, v2, hes, hlne, ?_, foldl_min_mem_of_le l 1 hlne hle1,
      fun x hx => foldl_min_le_mem l 1 x hx⟩
    rw [hfinal, if_neg (by simpa using hne), hself]
    have : minDep = l.foldl min 1 := hmin
    rw [this]
  · rw [hfinal]
    split_ifs
    · rw [hself]
    · rw [hself]
      exact min_le_left _ _

/-- Witness for C3: a holon with Self Score 1 and one congruence-level-2
dependency of Final Score 0.5 gets Final Score max(0, 0.5 - 0.1) = 0.4. -/
theorem claim_C3_final_score_witness :
    (calculateCLPenalty 3 = 0 ∧ calculateCLPenalty 2 = 1/10 ∧
      calculateCLPenalty 1 = 2/5 ∧ calculateCLPenalty 0 = 9/10) ∧
    (depsOf dbW3 "a" = [] → rW3.finalScore = rW3.selfScore) ∧
    (depsOf dbW3 "a" ≠ [] → ∃ l v2,
      depEffScores (calcR dbW3 0 1) (depsOf dbW3 "a") (insert "a" ∅) = some (l, v2) ∧
      l ≠ [] ∧ rW3.finalScore = min rW3.selfScore (l.foldl min 1) ∧
      l.foldl min 1 ∈ l ∧ (∀ x ∈ l, l.foldl min 1 ≤ x)) ∧
    rW3.finalScore ≤ rW3.selfScore := by
  refine claim_C3_final_score dbW3 0 1 "a" rW3 (insert "b" (insert "a" ∅)) ?_
  norm_num +decide [calcR, dbW3, rW3, depsOf, evidenceOf, evidenceFold, depFold,
    verdictScore, evidenceTypeToCLPenalty, isExpired, calculateCLPenalty, cycleReport,
    selfScoreOf, decayOf, selfFactors, lower_internal, lower_pass, lower_degrade,
    min_def, max_def]

/-- C1 counterexample: an evidence item with verdict pass, type internal,
valid_until in the past and an unexpired waiver covering it still contributes
0.1 (not its normal score 1.0), and the decay penalty 0.9 is still added: the
calculator never consults waivers. -/
theorem claim_C1_counterexample :
    isExpired 200 (Evid.mk "e1" "h1" "internal" "pass" (some 100)) = true ∧
    hasActiveWaiver dbC1 200 "e1" = true ∧
    (computeReliability dbC1 200 "h1").map (fun r => r.selfScore) = some (1/10) ∧
    (computeReliability dbC1 200 "h1").map (fun r => r.decayPenalty) = some (9/10) ∧
    (1/10 : ℚ) ≠ 1 := by
  refine ⟨by decide, by decide, ?_, ?_, by norm_num⟩ <;>
  norm_num +decide [computeReliability, relIds, calcR, dbC1, depsOf, evidenceOf,
    evidenceFold, depFold, verdictScore, evidenceTypeToCLPenalty, isExpired,
    selfScoreOf, decayOf, selfFactors, lower_internal, lower_pass, min_def, max_def]

/-- C1 as amended: the expiry override applies to every expired evidence item
unconditionally — waivers are never consulted by computeReliability, whose
result is unchanged under arbitrary changes to the waivers (and holons and
active-holons) tables; each expired item's contribution is exactly 0.1, the
decay penalty is 0.9 per expired item, and an unexpired item contributes its
normal verdict-based, type-penalized score. -/
theorem claim_C1_amended (db : DB) (now : Int) (fuel : Nat) (h : String)
    (r : AssuranceReport) (v : Finset String)
    (heq : calcR db now (fuel+1) h ∅ = some (r, v)) :
    r.decayPenalty = (9/10) * ((evidenceOf db h).countP (fun e => isExpired now e) : ℚ) ∧
    (∀ e ∈ evidenceOf db h,
      r.selfScore ≤ specItemScore now e ∧
      (isExpired now e = true → specItemScore now e = 1/10) ∧
      (isExpired now e = false → specItemScore now e =
        max 0 (verdictScore e.verdict - evidenceTypeToCLPenalty e.type))) ∧
    (∀ (hs : List Holon) (ws : List Waiver) (as2 : List ActiveHolon),
      computeReliability (DB.mk hs db.evidence db.relations ws as2) now h =
        computeReliability db now h) := by
  obtain ⟨_, hself, hdecay, _⟩ := calcR_some_spec (Finset.not_mem_empty h) heq
  refine ⟨?_, ?_, ?_⟩
  · rw [hdecay, decayOf_count]
  · intro e hm
    refine ⟨?_, ?_, ?_⟩
    · rw [hself, ← evidenceScore_eq_specItemScore]
      have hne : evidenceOf db h ≠ [] := by
        intro hcontra
        rw [hcontra] at hm
        cases hm
      exact (selfScoreOf_is_min db now h hne).1 e hm
    · intro hexp
      unfold specItemScore
      rw [if_pos hexp]
    · intro hexp
      unfold specItemScore
      rw [if_neg (by rw [hexp]; exact Bool.false_ne_true)]
  · intro hs ws as2
    exact computeReliability_congr (DB.mk hs db.evidence db.relations ws as2) db now rfl rfl h

/-- Witness for the amended C1 at the waived-but-expired database: the
contribution is 0.1, the decay penalty is 0.9, and replacing the waiver table
by the empty one leaves the report unchanged. -/
theorem claim_C1_amended_witness :
    rW1.decayPenalty = (9/10) * ((evidenceOf dbC1 "h1").countP (fun e => isExpired 200 e) : ℚ) ∧
    (∀ e ∈ evidenceOf dbC1 "h1",
      rW1.selfScore ≤ specItemScore 200 e ∧
      (isExpired 200 e = true → specItemScore 200 e = 1/10) ∧
      (isExpired 200 e = false → specItemScore 200 e =
        max 0 (verdictScore e.verdict - evidenceTypeToCLPenalty e.type))) ∧
    (∀ (hs : List Holon) (ws : List Waiver) (as2 : List ActiveHolon),
      computeReliability (DB.mk hs dbC1.evidence dbC1.relations ws as2) 200 "h1" =
        computeReliability dbC1 200 "h1") := by
  refine claim_C1_amended dbC1 200 0 "h1" rW1 (insert "h1" ∅) ?_
  norm_num +decide [calcR, dbC1, rW1, depsOf, evidenceOf, evidenceFold, depFold,
    verdictScore, evidenceTypeToCLPenalty, isExpired, selfScoreOf, decayOf, selfFactors,
    lower_internal, lower_pass, min_def, max_def]

lemma validTransitions_any_iff (p t : Phase) (role : String) :
    (validTransitions.any (fun r =>
      decide (r.frm = p ∧ r.toP = t ∧ r.role = role))) = true ↔
    (⟨p, t, role⟩ : TransitionRule) ∈ validTransitions := by
  rw [List.any_eq_true]
  constructor
  · rintro ⟨r, hmem, hdec⟩
    simp only [decide_eq_true_eq] at hdec
    obtain ⟨h1, h2, h3⟩ := hdec
    have hr : r = ⟨p, t, role⟩ := by
      cases r
      simp_all
    rw [← hr]
    exact hmem
  · intro hmem
    exact ⟨⟨p, t, role⟩, hmem, by simp⟩

/-- C10 (implicit): the effective assurance threshold used by the Operation
gate is 0.8 whenever the stored per-context threshold is missing, zero or
negative; only a strictly positive stored threshold takes effect. -/
theorem claim_C10_threshold_floor (db : DB) (r : FpfStateRow) :
    getAssuranceThreshold (loadState (some db) (some r)) =
      (match r.assuranceThreshold with
       | some t => if t ≤ 0 then 4/5 else t
       | none => 4/5) ∧
    getAssuranceThreshold (loadState (some db) none) = 4/5 ∧
    getAssuranceThreshold (loadState none (some r)) = 4/5 := by
  obtain ⟨ar, sid, rc, lc, th⟩ := r
  refine ⟨?_, ?_, ?_⟩
  · cases ar <;> cases lc <;> cases th <;>
      simp [loadState, getAssuranceThreshold]
  · simp [loadState, getAssuranceThreshold]
  · simp [loadState, getAssuranceThreshold]

/-- C7: a cross-phase transition is accepted only when the (current phase,
target, role) triple is a row of the fixed nine-row table; a non-matching
triple with a named role is rejected with the message naming the triple;
Idle→Induction is rejected for every role; Abduction→Deduction by Deductor
with a non-empty anchor directory is accepted and with an empty directory is
rejected. -/
theorem claim_C7_transition_table :
    (∀ (f : FSM) (fs : FileSystem) (now : Int) (target : Phase)
       (a : RoleAssignment) (ev : Option EvidenceStub) (reason : String),
      getPhase f ≠ target →
      canTransition f fs now target a ev = some (true, reason) →
      (⟨getPhase f, target, a.role⟩ : TransitionRule) ∈ validTransitions) ∧
    (∀ (f : FSM) (fs : FileSystem) (now : Int) (target : Phase)
       (a : RoleAssignment) (ev : Option EvidenceStub),
      getPhase f ≠ target → a.role ≠ "" →
      (⟨getPhase f, target, a.role⟩ : TransitionRule) ∉ validTransitions →
      canTransition f fs now target a ev =
        some (false, invalidTransitionMsg (getPhase f) target a.role)) ∧
    (∀ (f : FSM) (fs : FileSystem) (now : Int) (a : RoleAssignment)
       (ev : Option EvidenceStub),
      getPhase f = Phase.idle →
      (canTransition f fs now Phase.induction a ev).map Prod.fst = some false) ∧
    (canTransition fsmAbd fsDir 0 Phase.deduction ⟨"Deductor", "", ""⟩
        (some ⟨"", "anchors", "", ""⟩) = some (true, "OK")) ∧
    (canTransition fsmAbd fsEmptyDir 0 Phase.deduction ⟨"Deductor", "", ""⟩
        (some ⟨"", "anchors", "", ""⟩) =
      some (false, anchorRequiredMsg Phase.deduction Phase.abduction)) := by
  refine ⟨?_, ?_, ?_, ?_, ?_⟩
  · intro f fs now target a ev reason hph hacc
    unfold canTransition at hacc
    by_cases h1 : a.role = ""
    · rw [if_pos h1] at hacc
      simp at hacc
    · rw [if_neg h1, if_neg hph] at hacc
      by_cases h3 : (validTransitions.any (fun r =>
          decide (r.frm = getPhase f ∧ r.toP = target ∧ r.role = a.role))) = true
      · exact (validTransitions_any_iff _ _ _).mp h3
      · rw [if_pos (by simp [Bool.not_eq_true] at h3 ⊢; exact h3)] at hacc
        simp at hacc
  · intro f fs now target a ev hph hrole hnot
    have hany : (validTransitions.any (fun r =>
        decide (r.frm = getPhase f ∧ r.toP = target ∧ r.role = a.role))) = false := by
      rw [Bool.eq_false_iff]
      intro hc
      exact hnot ((validTransitions_any_iff _ _ _).mp hc)
    unfold canTransition
    rw [if_neg hrole, if_neg hph, hany]
    simp
  · intro f fs now a ev hph
    unfold canTransition
    by_cases h1 : a.role = ""
    · rw [if_pos h1]
      rfl
    · rw [if_neg h1, hph]
      have hne : (Phase.idle : Phase) ≠ Phase.induction := by decide
      rw [if_neg hne]
      have hany : (validTransitions.any (fun r =>
          decide (r.frm = Phase.idle ∧ r.toP = Phase.induction ∧ r.role = a.role))) = false := by
        simp [validTransitions]
      rw [hany]
      rfl
  · norm_num +decide [canTransition, getPhase, fsmAbd, fsDir, validateEvidence,
      validTransitions, isValidRoleForPhase]
  · norm_num +decide [canTransition, getPhase, fsmAbd, fsEmptyDir, validateEvidence,
      validTransitions, isValidRoleForPhase, anchorRequiredMsg, Phase.toStr,
      invalidTransitionMsg]

/-- Witness for C7: the accepted instance, the table membership it implies,
and the rejected non-matching triple with its message. -/
theorem claim_C7_transition_table_witness :
    (⟨Phase.abduction, Phase.deduction, "Deductor"⟩ : TransitionRule) ∈ validTransitions ∧
    (canTransition fsmAbd fsDir 0 Phase.induction ⟨"Inductor", "", ""⟩
        (some ⟨"", "anchors", "", ""⟩) =
      some (false, invalidTransitionMsg Phase.abduction Phase.induction "Inductor")) ∧
    (canTransition fsmAbd fsDir 0 Phase.induction ⟨"Inductor", "", ""⟩ none).map
        Prod.fst ≠ some true := by
  refine ⟨?_, ?_, ?_⟩
  · exact claim_C7_transition_table.1 fsmAbd fsDir 0 Phase.deduction ⟨"Deductor", "", ""⟩
      (some ⟨"", "anchors", "", ""⟩) "OK" (by decide) claim_C7_transition_table.2.2.2.1
  · exact claim_C7_transition_table.2.1 fsmAbd fsDir 0 Phase.induction ⟨"Inductor", "", ""⟩
      (some ⟨"", "anchors", "", ""⟩) (by decide) (by decide) (by decide)
  · rw [claim_C7_transition_table.2.1 fsmAbd fsDir 0 Phase.induction ⟨"Inductor", "", ""⟩
      none (by decide) (by decide) (by decide)]
    simp

/-- C2 fails on the code: two configurations with identical persisted state,
identical calculator-relevant data (evidence, relations, waivers) and
identical inputs, differing only in the active-holon rows read by the
derive-phase query, get opposite canTransition decisions, because GetPhase
returns DerivePhase whenever a database is attached. -/
theorem claim_C2_derive_phase_gates :
    (FSM.mk stIdle (some dbEmpty)).state = (FSM.mk stIdle (some dbL0)).state ∧
    dbEmpty.evidence = dbL0.evidence ∧ dbEmpty.relations = dbL0.relations ∧
    dbEmpty.waivers = dbL0.waivers ∧
    canTransition (FSM.mk stIdle (some dbEmpty)) fsDir 0 Phase.deduction
        ⟨"Deductor", "", ""⟩ (some ⟨"", "anchors", "", ""⟩) =
      some (false, invalidTransitionMsg Phase.idle Phase.deduction "Deductor") ∧
    canTransition (FSM.mk stIdle (some dbL0)) fsDir 0 Phase.deduction
        ⟨"Deductor", "", ""⟩ (some ⟨"", "anchors", "", ""⟩) =
      some (true, "OK") := by
  refine ⟨rfl, rfl, rfl, rfl, ?_, ?_⟩ <;>
  norm_num +decide [canTransition, getPhase, derivePhase, countLayer, hasAuditEvidence,
    stIdle, dbEmpty, dbL0, fsDir, validateEvidence, validTransitions,
    isValidRoleForPhase, invalidTransitionMsg, Phase.toStr]

/-- C6: a cross-phase transition into Operation is accepted only with an
evidence stub naming a holon id whose Final Score meets the effective
threshold; when the table row and anchor checks pass but the score is below
the threshold, the transition is rejected with the message naming the score,
the threshold and the weakest-link id; a missing stub or empty holon id is
never accepted. -/
theorem claim_C6_operation_gate (f : FSM) (d : DB) (fs : FileSystem) (now : Int)
    (a : RoleAssignment) (ev : Option EvidenceStub)
    (hdb : f.db = some d) (hph : getPhase f ≠ Phase.operation) :
    (∀ reason, canTransition f fs now Phase.operation a ev = some (true, reason) →
      ∃ stub r, ev = some stub ∧ stub.holonId ≠ "" ∧
        computeReliability d now stub.holonId = some r ∧
        getAssuranceThreshold f ≤ r.finalScore) ∧
    (∀ stub r, ev = some stub → stub.holonId ≠ "" →
      computeReliability d now stub.holonId = some r →
      r.finalScore < getAssuranceThreshold f →
      (⟨getPhase f, Phase.operation, a.role⟩ : TransitionRule) ∈ validTransitions →
      a.role ≠ "" →
      validateEvidence fs (getPhase f) Phase.operation ev = true →
      canTransition f fs now Phase.operation a ev =
        some (false, deniedMsg r.finalScore (getAssuranceThreshold f) r.weakestLink)) ∧
    ((ev = none ∨ ∃ stub, ev = some stub ∧ stub.holonId = "") →
      (canTransition f fs now Phase.operation a ev).map Prod.fst ≠ some true) := by
  refine ⟨?_, ?_, ?_⟩
  · intro reason hacc
    unfold canTransition at hacc
    by_cases h1 : a.role = ""
    · rw [if_pos h1] at hacc
      simp at hacc
    · rw [if_neg h1, if_neg hph] at hacc
      by_cases h3 : (!(validTransitions.any (fun r =>
          decide (r.frm = getPhase f ∧ r.toP = Phase.operation ∧ r.role = a.role)))) = true
      · rw [if_pos h3] at hacc
        simp at hacc
      · rw [if_neg h3] at hacc
        by_cases h4 : (!(validateEvidence fs (getPhase f) Phase.operation ev)) = true
        · rw [if_pos h4] at hacc
          simp at hacc
        · rw [if_neg h4, if_pos rfl] at hacc
          rcases ev with _ | stub
          · simp at hacc
          · dsimp only at hacc
            by_cases h5 : stub.holonId = ""
            · rw [if_pos h5] at hacc
              simp at hacc
            · rw [if_neg h5, hdb] at hacc
              dsimp only at hacc
              rcases hcr : computeReliability d now stub.holonId with _ | report
              · rw [hcr] at hacc
                cases hacc
              · rw [hcr] at hacc
                dsimp only at hacc
                by_cases h6 : report.finalScore < getAssuranceThreshold f
                · rw [if_pos h6] at hacc
                  simp at hacc
                · rw [if_neg h6] at hacc
                  exact ⟨stub, report, rfl, h5, hcr, not_lt.mp h6⟩
  · intro stub r hev h5 hcr hlt hmem hrole hval
    have hany : (validTransitions.any (fun rr =>
        decide (rr.frm = getPhase f ∧ rr.toP = Phase.operation ∧ rr.role = a.role))) = true :=
      (validTransitions_any_iff _ _ _).mpr hmem
    unfold canTransition
    rw [if_neg hrole, if_neg hph, hany, hval]
    simp only [Bool.not_true, Bool.false_eq_true, if_false]
    rw [if_pos trivial, hev]
    dsimp only
    rw [if_neg h5, hdb]
    dsimp only
    rw [hcr]
    dsimp only
    rw [if_pos hlt]
  · intro hbad
    unfold canTransition
    by_cases h1 : a.role = ""
    · rw [if_pos h1]
      simp
    · rw [if_neg h1, if_neg hph]
      by_cases h3 : (!(validTransitions.any (fun r =>
          decide (r.frm = getPhase f ∧ r.toP = Phase.operation ∧ r.role = a.role)))) = true
      · rw [if_pos h3]
        simp
      · rw [if_neg h3]
        by_cases h4 : (!(validateEvidence fs (getPhase f) Phase.operation ev)) = true
        · rw [if_pos h4]
          simp
        · rw [if_neg h4, if_pos rfl]
          rcases hbad with hnone | ⟨stub, hev, hid⟩
          · rw [hnone]
            simp
          · rw [hev]
            dsimp only
            rw [if_pos hid]
            simp

/-- Witness for C6: over `dbOp` the derived phase is Decision, holon "h1" has
Final Score 0.5 < 0.8, and the Decider's Operation request is rejected with
the message naming score, threshold and weakest link. -/
theorem claim_C6_operation_gate_witness :
    canTransition fsmOp fsDir 0 Phase.operation ⟨"Decider", "", ""⟩ (some stubOp) =
      some (false, deniedMsg (1/2) (4/5) "") := by
  have hph : getPhase fsmOp ≠ Phase.operation := by
    norm_num +decide [getPhase, fsmOp, dbOp, derivePhase, countLayer, hasAuditEvidence]
  have hcr : computeReliability dbOp 0 "h1" = some rOp := by
    norm_num +decide [computeReliability, relIds, calcR, dbOp, rOp, depsOf, evidenceOf,
      evidenceFold, depFold, verdictScore, evidenceTypeToCLPenalty, isExpired,
      selfScoreOf, decayOf, selfFactors, lower_internal, lower_degrade, min_def, max_def]
  have h := (claim_C6_operation_gate fsmOp dbOp fsDir 0 ⟨"Decider", "", ""⟩
      (some stubOp) rfl hph).2.1 stubOp rOp rfl (by decide) hcr
      (by norm_num [rOp, fsmOp, stIdle, getAssuranceThreshold])
      (by
        have : getPhase fsmOp = Phase.decision := by
          norm_num +decide [getPhase, fsmOp, dbOp, derivePhase, countLayer, hasAuditEvidence]
        rw [this]
        decide)
      (by decide)
      (by decide)
  rw [h]
  have hth : getAssuranceThreshold fsmOp = 4/5 := by
    norm_num [getAssuranceThreshold, fsmOp, stIdle]
  rw [hth]
  rfl

/-- C8: before a dependency edge is created, the depth-first reachability
check with its visited set terminates on every database (already-cyclic data
included) and decides exactly whether the proposed source is reachable from
the proposed target; when it reports a would-be cycle the edge is not created
— the dependency is skipped with a non-fatal warning and the remaining
requests in the batch are still processed, the database unchanged by the
skipped request. -/
theorem claim_C8_cycle_policy :
    (∀ (db : DB) (s t : String), ∃ res, wouldCreateCycle db s t = some res) ∧
    (∀ (db : DB) (s t : String), wouldCreateCycle db s t = some true ↔ Reaches db t s) ∧
    (∀ (db : DB) (slug relationType : String) (cl : Int) (depId : String)
       (rest : List String),
      (db.holons.any (fun h => h.id = depId)) = true →
      wouldCreateCycle db depId slug = some true →
      linkDependencies slug relationType cl (depId :: rest) db =
        ((linkDependencies slug relationType cl rest db).1,
         cycleWarning depId :: (linkDependencies slug relationType cl rest db).2)) ∧
    (∀ (db : DB) (slug relationType : String) (cl : Int) (depId : String)
       (rest : List String),
      (db.holons.any (fun h => h.id = depId)) = true →
      Reaches db slug depId →
      linkDependencies slug relationType cl (depId :: rest) db =
        ((linkDependencies slug relationType cl rest db).1,
         cycleWarning depId :: (linkDependencies slug relationType cl rest db).2)) := by
  have h3 : ∀ (db : DB) (slug relationType : String) (cl : Int) (depId : String)
      (rest : List String),
      (db.holons.any (fun h => h.id = depId)) = true →
      wouldCreateCycle db depId slug = some true →
      linkDependencies slug relationType cl (depId :: rest) db =
        ((linkDependencies slug relationType cl rest db).1,
         cycleWarning depId :: (linkDependencies slug relationType cl rest db).2) := by
    intro db slug relationType cl depId rest hh hcyc
    simp [linkDependencies, hh, hcyc]
  refine ⟨wouldCreateCycle_total, wouldCreateCycle_iff, h3, ?_⟩
  intro db slug relationType cl depId rest hh hreach
  exact h3 db slug relationType cl depId rest hh
    ((wouldCreateCycle_iff db depId slug).mpr hreach)

/-- Witness for C8: in `dbC8` the edge a→b already exists, so proposing b as a
dependency of a (which would add edge b→a) is detected as a cycle and skipped
with a warning, leaving the database unchanged. -/
theorem claim_C8_cycle_policy_witness :
    wouldCreateCycle dbC8 "b" "a" = some true ∧
    Reaches dbC8 "a" "b" ∧
    linkDependencies "a" "componentOf" 3 ["b"] dbC8 = (dbC8, [cycleWarning "b"]) := by
  have h1 : wouldCreateCycle dbC8 "b" "a" = some true := by decide
  refine ⟨h1, (claim_C8_cycle_policy.2.1 dbC8 "b" "a").mp h1, ?_⟩
  have h3 := claim_C8_cycle_policy.2.2.1 dbC8 "a" "componentOf" 3 "b" [] (by decide) h1
  rw [h3]
  rfl

end Quint
